import Mathlib

/-!
Verification of the LIR middle-end of the `acid` compiler backend.

The Rust sources under `src/src/lir` (procedure compilation, polymorphic
procedure monomorphization, the debug/display code generator, the error
model) are shallowly embedded below.  Rust's `Type` enum is named `Ty`
here (`Type` is reserved in Lean); otherwise names follow the source.
Code of the repository that is not under `src/` (the `asm` crate's
`CoreOp`/`Location` definitions, the type simplifier and `get_size` in
`types.rs`, the `Env` symbol table, the VM instruction semantics) is
modelled from the specification, as marked on each such definition.
-/

set_option linter.unusedVariables false
set_option linter.unnecessarySeqFocus false

namespace Acid

/-- Mutability of a binding or pointer (`src/src/lir`, used throughout). -/
inductive Mutability where
  | Mutable
  | Immutable
deriving DecidableEq, Repr

/-- `Mutability::is_mutable`. -/
def Mutability.is_mutable : Mutability → Bool
  | .Mutable => true
  | .Immutable => false

/-- The LIR type language (`Type` in the source; spec §3).  Constant array
lengths are stored already evaluated to a natural number (the source stores
a `ConstExpr` and calls `as_int` on it).  The `Type`, `Let` and
`ConstParam` constructors of the source are not exercised by the claims
and are omitted from the embedding. -/
inductive Ty where
  | none
  | never
  | any
  | cell
  | int
  | float
  | bool
  | char
  | pointer (m : Mutability) (t : Ty)
  | array (t : Ty) (len : Nat)
  | tuple (ts : List Ty)
  | struct_ (fields : List (String × Ty))
  | union_ (fields : List (String × Ty))
  | enumUnion (fields : List (String × Ty))
  | enum_ (variants : List String)
  | proc (args : List Ty) (ret : Ty)
  | unit (name : String) (t : Ty)
  | symbol (name : String)
  | poly (params : List (String × Option Ty)) (body : Ty)
  | apply (f : Ty) (args : List Ty)
deriving Repr

/-- Modelled from the spec: a source-code annotation is a span with a
union combinator (§7, §9: "represent Annotation as a span with a union
combinator").  We model it as the list of source spans it covers, with
union as concatenation (named `Annot`; the source's name for it cannot
be written in this development). -/
structure Annot where
  spans : List (Nat × Nat)
deriving DecidableEq, Repr

/-- Modelled from the spec: the union combinator (`|=`) on annotations. -/
def Annot.union (a b : Annot) : Annot :=
  ⟨a.spans ++ b.spans⟩

/-- The LIR error type (`src/src/lir/error.rs`).  Only the constructors
exercised by the claims are embedded; payloads that are whole expressions
in the source are dropped (the claims never inspect them).  `DepthLimit`
is an artifact of the embedding: it bounds the code generator's
recursion, which the source leaves unbounded; the claims' hypotheses and
inputs never reach it. -/
inductive Err where
  | Annotated (inner : Err) (a : Annot)
  | MismatchedTypes (expected found : Ty)
  | SymbolNotDefined (name : String)
  | TypeNotDefined (name : String)
  | UnsizedType (t : Ty)
  | VariantNotFound (t : Ty) (variant : String)
  | InvalidUnaryOpTypes (t : Ty)
  | UnsupportedOperation
  | InvalidTemplateArgs (t : Ty)
  | ApplyNonTemplate (t : Ty)
  | SizeOfTemplate (t : Ty)
  | CouldntSimplify (t1 t2 : Ty)
  | DepthLimit
deriving Repr

/-- Modelled from the spec: a memory location of the assembly layer
(`asm` crate, not under `src/`).  Registers `A`, `B`, `C`, the stack
pointer `SP` and frame pointer `FP` are locations; `deref` follows the
cell a location points to, and `offset` shifts the referred address
(§4.5). -/
inductive Location where
  | A
  | B
  | C
  | SP
  | FP
  | deref (l : Location)
  | offset (l : Location) (n : Int)
deriving DecidableEq, Repr

/-- Modelled from the spec: an output destination of the VM.  Only the
stdout modes are used by the embedded code (§6). -/
inductive OutputMode where
  | stdout_char
  | stdout_int
  | stdout_float
deriving DecidableEq, Repr

/-- Modelled from the spec: an input source of the VM (§6). -/
inductive InputMode where
  | stdin_char
  | stdin_int
  | stdin_float
deriving DecidableEq, Repr

/-- Modelled from the spec: the `CoreOp` instruction set of the assembly
layer consumed by the compiler (§4.5).  Only the constructors emitted by
the embedded code are modelled. -/
inductive CoreOp where
  | Set (dst : Location) (val : Int)
  | SetLabel (dst : Location) (label : String)
  | Put (src : Location) (mode : OutputMode)
  | Get (dst : Location) (mode : InputMode)
  | Push (src : Location) (size : Nat)
  | Pop (dst : Option Location) (size : Nat)
  | Copy (dst src : Location) (size : Nat)
  | Move (src dst : Location)
  | GetAddress (addr : Location) (dst : Location)
  | Next (dst : Location) (n : Option Int)
  | Dec (dst : Location)
  | IsEqual (a b dst : Location)
  | If (cond : Location)
  | Else
  | End
  | While (cond : Location)
  | Fn (label : String)
  | Many (ops : List CoreOp)
deriving Repr

/-- Modelled from the spec: the `Env` symbol table (§3, §6).  Only the
tables the embedded code consults are modelled; `define_*` writes into
the innermost scope, which we model by prepending. -/
structure Env where
  types : List (String × Ty)
  vars : List (String × Mutability × Ty)
deriving Repr

/-- Modelled from the spec: `Env::get_type` (§6). -/
def Env.get_type (env : Env) (name : String) : Option Ty :=
  (env.types.find? (fun p => p.1 == name)).map Prod.snd

/-- Modelled from the spec: `Env::define_type` (§6). -/
def Env.define_type (env : Env) (name : String) (t : Ty) : Env :=
  { env with types := (name, t) :: env.types }

/-- Modelled from the spec: `Env::define_var` (§6). -/
def Env.define_var (env : Env) (name : String) (m : Mutability) (t : Ty) : Env :=
  { env with vars := (name, m, t) :: env.vars }

/-- Modelled from the spec: `Env::new_scope` clones parent visibility
(§3); writes then happen in the innermost scope.  In this functional
model a child scope starts as a copy of the parent. -/
def Env.new_scope (env : Env) : Env := env

mutual

/-- Modelled from the spec: plain structural (syntactic) type equality
(field/variant order preserved, `Unit` nominal).  This is NOT the
source's env-aware `Type::equals`: it is the syntactic comparator that
`Type::equals` (`Ty.equals` below) applies after simplifying both
operands to a concrete head, and the comparator the proofs use to state
facts about already-simplified types. -/
def tyEq : Ty → Ty → Bool
  | .none, .none => true
  | .never, .never => true
  | .any, .any => true
  | .cell, .cell => true
  | .int, .int => true
  | .float, .float => true
  | .bool, .bool => true
  | .char, .char => true
  | .pointer m1 t1, .pointer m2 t2 => m1 == m2 && tyEq t1 t2
  | .array t1 n1, .array t2 n2 => tyEq t1 t2 && n1 == n2
  | .tuple ts1, .tuple ts2 => tyEqList ts1 ts2
  | .struct_ f1, .struct_ f2 => tyEqFields f1 f2
  | .union_ f1, .union_ f2 => tyEqFields f1 f2
  | .enumUnion f1, .enumUnion f2 => tyEqFields f1 f2
  | .enum_ v1, .enum_ v2 => v1 == v2
  | .proc a1 r1, .proc a2 r2 => tyEqList a1 a2 && tyEq r1 r2
  | .unit n1 t1, .unit n2 t2 => n1 == n2 && tyEq t1 t2
  | .symbol s1, .symbol s2 => s1 == s2
  | .poly p1 b1, .poly p2 b2 => tyEqParams p1 p2 && tyEq b1 b2
  | .apply f1 a1, .apply f2 a2 => tyEq f1 f2 && tyEqList a1 a2
  | _, _ => false
termination_by structural t1 t2 => t1

/-- Pointwise `tyEq` on type lists. -/
def tyEqList : List Ty → List Ty → Bool
  | [], [] => true
  | t1 :: r1, t2 :: r2 => tyEq t1 t2 && tyEqList r1 r2
  | _, _ => false
termination_by structural l1 l2 => l1

/-- Pointwise `tyEq` on named fields. -/
def tyEqFields : List (String × Ty) → List (String × Ty) → Bool
  | [], [] => true
  | (n1, t1) :: r1, (n2, t2) :: r2 => n1 == n2 && tyEq t1 t2 && tyEqFields r1 r2
  | _, _ => false
termination_by structural l1 l2 => l1

/-- Pointwise `tyEq` on type parameters with optional bounds. -/
def tyEqParams : List (String × Option Ty) → List (String × Option Ty) → Bool
  | [], [] => true
  | (n1, some t1) :: r1, (n2, some t2) :: r2 => n1 == n2 && tyEq t1 t2 && tyEqParams r1 r2
  | (n1, Option.none) :: r1, (n2, Option.none) :: r2 => n1 == n2 && tyEqParams r1 r2
  | _, _ => false
termination_by structural l1 l2 => l1

end

mutual

/-- Modelled from the spec: `Type::substitute(name, T)` (§4.1), structural
substitution of a type for a symbol, skipping `Poly` binders that shadow
the name. -/
def Ty.substitute (t : Ty) (name : String) (v : Ty) : Ty :=
  match t with
  | .none => .none
  | .never => .never
  | .any => .any
  | .cell => .cell
  | .int => .int
  | .float => .float
  | .bool => .bool
  | .char => .char
  | .pointer m x => .pointer m (x.substitute name v)
  | .array x n => .array (x.substitute name v) n
  | .tuple ts => .tuple (substituteList ts name v)
  | .struct_ fs => .struct_ (substituteFields fs name v)
  | .union_ fs => .union_ (substituteFields fs name v)
  | .enumUnion fs => .enumUnion (substituteFields fs name v)
  | .enum_ vs => .enum_ vs
  | .proc args ret => .proc (substituteList args name v) (ret.substitute name v)
  | .unit n x => .unit n (x.substitute name v)
  | .symbol s => if s = name then v else .symbol s
  | .poly params body =>
      if params.any (fun p => p.1 == name) then .poly params body
      else .poly (substituteParams params name v) (body.substitute name v)
  | .apply f args => .apply (f.substitute name v) (substituteList args name v)
termination_by structural t

/-- Substitution mapped over a type list. -/
def substituteList (ts : List Ty) (name : String) (v : Ty) : List Ty :=
  match ts with
  | [] => []
  | t :: rest => t.substitute name v :: substituteList rest name v
termination_by structural ts

/-- Substitution mapped over named fields. -/
def substituteFields (fs : List (String × Ty)) (name : String) (v : Ty) :
    List (String × Ty) :=
  match fs with
  | [] => []
  | (n, t) :: rest => (n, t.substitute name v) :: substituteFields rest name v
termination_by structural fs

/-- Substitution mapped over type-parameter bounds. -/
def substituteParams (ps : List (String × Option Ty)) (name : String) (v : Ty) :
    List (String × Option Ty) :=
  match ps with
  | [] => []
  | (n, some t) :: rest => (n, some (t.substitute name v)) :: substituteParams rest name v
  | (n, Option.none) :: rest => (n, Option.none) :: substituteParams rest name v
termination_by structural ps

end

mutual

/-- Modelled from the spec: a deterministic textual rendering of a type,
standing in for both the `Display` implementation and the derived debug
rendering of `Type` (neither is under `src/`; the spec only requires "a
stable, structured textual form", §7).  No claim depends on the exact
characters produced, only on determinism. -/
def Ty.fmt : Ty → String
  | .none => "None"
  | .never => "Never"
  | .any => "Any"
  | .cell => "Cell"
  | .int => "Int"
  | .float => "Float"
  | .bool => "Bool"
  | .char => "Char"
  | .pointer m t => (if m.is_mutable then "&mut " else "&") ++ t.fmt
  | .array t n => t.fmt ++ "[" ++ toString n ++ "]"
  | .tuple ts => "(" ++ fmtTyList ts ++ ")"
  | .struct_ fs => "struct (" ++ fmtTyFields fs ++ ")"
  | .union_ fs => "union (" ++ fmtTyFields fs ++ ")"
  | .enumUnion fs => "enum (" ++ fmtTyFields fs ++ ")"
  | .enum_ vs => "enum (" ++ String.intercalate ", " vs ++ ")"
  | .proc args ret => "proc(" ++ fmtTyList args ++ ") -> " ++ ret.fmt
  | .unit n t => "unit " ++ n ++ " = " ++ t.fmt
  | .symbol s => s
  | .poly ps body => "poly(" ++ fmtTyParams ps ++ ") " ++ body.fmt
  | .apply f args => f.fmt ++ "<" ++ fmtTyList args ++ ">"
termination_by structural t => t

/-- Comma-separated rendering of a type list. -/
def fmtTyList : List Ty → String
  | [] => ""
  | [t] => t.fmt
  | t :: rest => t.fmt ++ ", " ++ fmtTyList rest
termination_by structural ts => ts

/-- Comma-separated rendering of named fields. -/
def fmtTyFields : List (String × Ty) → String
  | [] => ""
  | [(n, t)] => n ++ ": " ++ t.fmt
  | (n, t) :: rest => n ++ ": " ++ t.fmt ++ ", " ++ fmtTyFields rest
termination_by structural fs => fs

/-- Comma-separated rendering of type parameters. -/
def fmtTyParams : List (String × Option Ty) → String
  | [] => ""
  | [(n, some t)] => n ++ ": " ++ t.fmt
  | [(n, Option.none)] => n
  | (n, some t) :: rest => n ++ ": " ++ t.fmt ++ ", " ++ fmtTyParams rest
  | (n, Option.none) :: rest => n ++ ", " ++ fmtTyParams rest
termination_by structural ps => ps

end

/-- Is the head constructor of this type concrete (primitive, compound or
callable, spec §4.1), as opposed to a `Symbol`, `Poly` or `Apply` that
simplification must still unfold? -/
def Ty.isConcreteHead : Ty → Bool
  | .symbol _ => false
  | .poly _ _ => false
  | .apply _ _ => false
  | _ => true

/-- Modelled from the spec: the depth bound on type simplification ("a
depth counter bounds recursion", §3); its exact value is immaterial to
the claims. -/
def simplifyDepthLimit : Nat := 512

/-- β-reduce a type application: substitute each argument for its
parameter in the body (spec §4.1, `Apply`→β-reduce). -/
def substAll (params : List (String × Option Ty)) (args : List Ty) (body : Ty) : Ty :=
  (params.zip args).foldl (fun b pa => b.substitute pa.1.1 pa.2) body

/-- Modelled from the spec: `simplify_until_concrete` (§4.1): unfold
`Symbol` lookups and β-reduce `Apply` until the head constructor is
concrete, bounded by a depth counter.  An application whose arity does
not match its template's parameter list fails with `InvalidTemplateArgs`
("Invalid number of template arguments to a type",
`src/src/lir/error.rs`). -/
def simplifyGo (env : Env) : Nat → Ty → Except Err Ty
  | 0, t => .error (.CouldntSimplify t t)
  | f + 1, t =>
    if t.isConcreteHead then .ok t
    else
      match t with
      | .symbol s =>
          match env.get_type s with
          | some t' => simplifyGo env f t'
          | Option.none => .error (.TypeNotDefined s)
      | .apply (.poly params body) args =>
          if params.length = args.length then simplifyGo env f (substAll params args body)
          else .error (.InvalidTemplateArgs (.apply (.poly params body) args))
      | .apply (.symbol s) args =>
          match env.get_type s with
          | some t' => simplifyGo env f (.apply t' args)
          | Option.none => .error (.TypeNotDefined s)
      | .apply g _ => .error (.ApplyNonTemplate g)
      | t' => .error (.CouldntSimplify t' t')

/-- `Type::simplify_until_concrete(env)` as used by the embedded code.
The `checked` strictness flag taken by one of the source's overloads is
not modelled: no claim depends on it. -/
def Ty.simplify_until_concrete (t : Ty) (env : Env) : Except Err Ty :=
  simplifyGo env simplifyDepthLimit t

mutual

/-- Modelled from the spec: `Type::equals(other, env)` (§4.1), structural
equality modulo simplification: both operands are simplified until their
head constructors are concrete, the heads are compared, and matching
compound heads are compared recursively the same way, so a `Symbol` or
`Apply` operand that resolves to the other operand's type is equal to
it.  The source terminates on recursive types with a visited set of
pairs; the embedded `Ty` has no recursive `Let` types, so the embedding
bounds the recursion by a fuel counter instead, which no claim's input
ever exhausts. -/
def tyEqualsGo (fuel : Nat) (env : Env) (a b : Ty) : Except Err Bool :=
  match fuel with
  | 0 => .error .DepthLimit
  | f + 1 => do
    let a2 ← a.simplify_until_concrete env
    let b2 ← b.simplify_until_concrete env
    match a2, b2 with
    | .pointer m1 t1, .pointer m2 t2 => do
        let e ← tyEqualsGo f env t1 t2
        .ok (m1 == m2 && e)
    | .array t1 n1, .array t2 n2 => do
        let e ← tyEqualsGo f env t1 t2
        .ok (e && n1 == n2)
    | .tuple ts1, .tuple ts2 => tyEqualsListGo f env ts1 ts2
    | .struct_ f1, .struct_ f2 => tyEqualsFieldsGo f env f1 f2
    | .union_ f1, .union_ f2 => tyEqualsFieldsGo f env f1 f2
    | .enumUnion f1, .enumUnion f2 => tyEqualsFieldsGo f env f1 f2
    | .proc a1 r1, .proc a2 r2 => do
        let ea ← tyEqualsListGo f env a1 a2
        let er ← tyEqualsGo f env r1 r2
        .ok (ea && er)
    | .unit n1 t1, .unit n2 t2 => do
        let e ← tyEqualsGo f env t1 t2
        .ok (n1 == n2 && e)
    | x, y => .ok (tyEq x y)
termination_by structural fuel

/-- `Type::equals` mapped over paired type lists. -/
def tyEqualsListGo (fuel : Nat) (env : Env) (xs ys : List Ty) : Except Err Bool :=
  match fuel with
  | 0 => .error .DepthLimit
  | f + 1 =>
    match xs, ys with
    | [], [] => .ok true
    | x :: xr, y :: yr => do
        let e ← tyEqualsGo f env x y
        let er ← tyEqualsListGo f env xr yr
        .ok (e && er)
    | _, _ => .ok false
termination_by structural fuel

/-- `Type::equals` mapped over paired named-field lists. -/
def tyEqualsFieldsGo (fuel : Nat) (env : Env)
    (xs ys : List (String × Ty)) : Except Err Bool :=
  match fuel with
  | 0 => .error .DepthLimit
  | f + 1 =>
    match xs, ys with
    | [], [] => .ok true
    | x :: xr, y :: yr => do
        let e ← tyEqualsGo f env x.2 y.2
        let er ← tyEqualsFieldsGo f env xr yr
        .ok (x.1 == y.1 && e && er)
    | _, _ => .ok false
termination_by structural fuel

end

/-- `Type::equals(other, env)` as used by the embedded code, at the same
depth bound as simplification. -/
def Ty.equals (a b : Ty) (env : Env) : Except Err Bool :=
  tyEqualsGo simplifyDepthLimit env a b

/-- Modelled from the spec: `Type::get_size(env)` (§4.1): "sum of
component sizes in cells; `Pointer` is 1; `Proc` is 1 (label);
`EnumUnion` is max(payload sizes)+1 for tag; `Enum` is 1."  Primitives
occupy one cell (`None` and `Never` zero); an array is its length times
the element size; tuples and structs sum their components; unions take
the maximum of their fields.  Symbols are resolved through the
environment; templates have no size (`SizeOfTemplate`).  The depth
counter is consumed along the structure so that the recursion is
structural; its exact accounting is immaterial to the claims. -/
def getSizeGo (env : Env) : Nat → Ty → Except Err Nat
  | 0, _ => .error .DepthLimit
  | f + 1, t =>
    match t with
    | .none => .ok 0
    | .never => .ok 0
    | .any => .ok 1
    | .cell => .ok 1
    | .int => .ok 1
    | .float => .ok 1
    | .bool => .ok 1
    | .char => .ok 1
    | .pointer _ _ => .ok 1
    | .proc _ _ => .ok 1
    | .enum_ _ => .ok 1
    | .array x n => do
        let s ← getSizeGo env f x
        .ok (n * s)
    | .tuple [] => .ok 0
    | .tuple (x :: rest) => do
        let s ← getSizeGo env f x
        let r ← getSizeGo env f (.tuple rest)
        .ok (s + r)
    | .struct_ [] => .ok 0
    | .struct_ (ft :: rest) => do
        let s ← getSizeGo env f ft.2
        let r ← getSizeGo env f (.struct_ rest)
        .ok (s + r)
    | .union_ [] => .ok 0
    | .union_ (ft :: rest) => do
        let s ← getSizeGo env f ft.2
        let r ← getSizeGo env f (.union_ rest)
        .ok (max s r)
    | .enumUnion fs => do
        let m ← getSizeGo env f (.union_ fs)
        .ok (m + 1)
    | .unit _ x => getSizeGo env f x
    | .symbol s =>
        match env.get_type s with
        | some t' => getSizeGo env f t'
        | Option.none => .error (.TypeNotDefined s)
    | .poly ps b => .error (.SizeOfTemplate (.poly ps b))
    | .apply g args => .error (.SizeOfTemplate (.apply g args))

/-- `Type::get_size(env)` as used by the embedded code. -/
def Ty.get_size (t : Ty) (env : Env) : Except Err Nat :=
  getSizeGo env simplifyDepthLimit t

/-- `Type::variant_index`: the position of a variant name in the ordered
variant list (modelled from the spec; the source's helper is in the
`types` module, not under `src/`). -/
def Ty.variant_index (variants : List String) (name : String) : Option Nat :=
  variants.findIdx? (fun v => v == name)

/-! ## The debug/display code generator (`src/src/lir/expr/ops/io.rs`)

Character constants appear as their numeric codes, exactly as the Rust
code emits them (`b: as i64`): 32 space, 39 single quote, 40 `(`,
41 `)`, 44 comma, 58 colon, 61 `=`, 91 `[`, 93 `]`, 123 and 125 braces.
-/

/-- The op pair the source emits for printing one character:
`Set(A, c as u8 as i64); Put(A, stdout_char)`. -/
def putCharOps (code : Int) : List CoreOp :=
  [.Set .A code, .Put .A .stdout_char]

/-- The ops the source's per-character loops emit for a whole string. -/
def putStrOps (s : String) : List CoreOp :=
  (s.toList.map (fun c => putCharOps (Int.ofNat (c.toNat % 256)))).flatten

/-- The `", "` separator ops emitted between printed elements. -/
def sepOps : List CoreOp :=
  putCharOps 44 ++ putCharOps 32

/-- The bracketed `While` loop both generators emit for `Int[]` and
`Float[]` arrays (identical instruction lists in `Put::debug` and
`Put::display`, differing only in the `Put` mode). -/
def arrayLoopOps (addr : Location) (len : Int) (mode : OutputMode) : List CoreOp :=
  [.Set .C 91, .Put .C .stdout_char,
   .GetAddress addr .A,
   .Set .B len,
   .While .B,
   .Put (Location.A.deref) mode,
   .Next .A Option.none,
   .Dec .B,
   .If .B,
   .Set .C 44, .Put .C .stdout_char,
   .Set .C 32, .Put .C .stdout_char,
   .End,
   .End,
   .Set .C 93, .Put .C .stdout_char]

/-- The per-variant tag-dispatch ops `Put::debug` emits for an `Enum`. -/
def enumDebugOps (t : Ty) (addr : Location) (variants : List String) : List CoreOp :=
  (variants.map (fun variant =>
    [.Move addr .A,
     .Set .B (Int.ofNat ((Ty.variant_index variants variant).getD 0)),
     .IsEqual .A .B .C,
     .If .C]
    ++ putStrOps (t.fmt ++ " of " ++ variant)
    ++ [.End])).flatten

/-- The per-variant tag-dispatch ops `Put::display` emits for an `Enum`,
followed by the `" of {t}"` suffix. -/
def enumDisplayOps (t : Ty) (addr : Location) (variants : List String) : List CoreOp :=
  (variants.map (fun variant =>
    [.Move addr .A,
     .Set .B (Int.ofNat ((Ty.variant_index variants variant).getD 0)),
     .IsEqual .A .B .C,
     .If .C]
    ++ putStrOps variant
    ++ [.End])).flatten
  ++ putStrOps (" of " ++ t.fmt)

/-- The ops `Put::debug` emits for a `Proc` type: its textual signature,
parenthesised unless there is exactly one argument. -/
def procDebugOps (args : List Ty) (ret : Ty) : List CoreOp :=
  putStrOps ((if args.length == 1 then "" else "(")
    ++ String.intercalate ", " (args.map Ty.fmt)
    ++ (if args.length == 1 then "" else ")")
    ++ " -> " ++ ret.fmt)

/-- `Put`, the display (`put`) / structural (`debug`) printing unary
operator (`src/src/lir/expr/ops/io.rs`). -/
inductive Put where
  | Debug
  | Display
deriving DecidableEq, Repr

mutual

/-- `Put::debug`: emit VM ops that structurally print the value of type
`t0` located at `addr` (`src/src/lir/expr/ops/io.rs` lines 97-425).  The
`fuel` counter is an artifact bounding the recursion, which the source
leaves unbounded; it is threaded through the element/field helpers
exactly so that every claim's input evaluates within any sufficiently
large fuel. -/
def Put.debug (fuel : Nat) (addr : Location) (t0 : Ty) (env : Env) :
    Except Err (List CoreOp) :=
  match fuel with
  | 0 => .error .DepthLimit
  | f + 1 => do
    let t ← t0.simplify_until_concrete env
    match t with
    | .pointer m _ =>
        .ok (putStrOps (if m.is_mutable then "&mut (" else "&(")
          ++ [.Put addr .stdout_int] ++ putCharOps 41)
    | .bool =>
        .ok ([.If addr] ++ putStrOps ("true") ++ [.Else] ++ putStrOps ("false") ++ [.End])
    | .none => .ok (putStrOps ("None"))
    | .any => .ok (putStrOps ("Any"))
    | .cell => .ok ([.Put addr .stdout_int] ++ putStrOps (" (Cell)"))
    | .int => .ok [.Put addr .stdout_int]
    | .float => .ok [.Put addr .stdout_float]
    | .char => .ok (putCharOps 39 ++ [.Put addr .stdout_char] ++ putCharOps 39)
    | .never => .ok (putStrOps ("Never"))
    | .enum_ variants => .ok (enumDebugOps (.enum_ variants) addr variants)
    | .array ty n => do
        let is_int ← Ty.equals ty .int env
        if is_int then .ok [.Many (arrayLoopOps addr (Int.ofNat n) .stdout_int)]
        else do
          let is_float ← Ty.equals ty .float env
          if is_float then .ok [.Many (arrayLoopOps addr (Int.ofNat n) .stdout_float)]
          else do
            let ty_size ← ty.get_size env
            let elems ← debugElems f env addr ty (Int.ofNat ty_size) 0 n
            .ok (putCharOps 91 ++ elems ++ putCharOps 93)
    | .struct_ fields => do
        let inner ← debugStructFields f env addr 0 fields
        .ok (putStrOps ("\x7b") ++ inner ++ putCharOps 125)
    | .tuple types => do
        let inner ← debugTupleTys f env addr 0 types
        .ok (putCharOps 40 ++ inner ++ putCharOps 41)
    | .proc args ret => .ok (procDebugOps args ret)
    | .unit _ ty => Put.debug f addr ty env
    | .symbol name =>
        match env.get_type name with
        | some _ => .ok (putStrOps name)
        | Option.none => .error (.TypeNotDefined name)
    | .enumUnion fields => do
        let size ← (Ty.enumUnion fields).get_size env
        debugEnumUnionFields f env addr (addr.offset (Int.ofNat size - 1))
          (.enumUnion fields) (fields.map Prod.fst) fields
    | .union_ fields => do
        let inner ← debugUnionFields f env addr fields
        .ok (putStrOps ("union \x7b") ++ inner ++ putCharOps 125)
    | t' => .error (.InvalidUnaryOpTypes t')
termination_by structural fuel

/-- The compile-time unrolling `for i in 0..array_len` over array
elements shared by `Put::debug` and `Put::display`: the element printer
at offset `i * ty_size`, with `", "` between consecutive elements. -/
def debugElems (fuel : Nat) (env : Env) (addr : Location) (ty : Ty) (ty_size : Int)
    (i : Nat) (remaining : Nat) : Except Err (List CoreOp) :=
  match fuel with
  | 0 => .error .DepthLimit
  | f + 1 =>
    match remaining with
    | 0 => .ok []
    | r + 1 => do
        let inner ← Put.debug f (addr.offset (Int.ofNat i * ty_size)) ty env
        if r = 0 then .ok inner
        else do
          let rest ← debugElems f env addr ty ty_size (i + 1) r
          .ok (inner ++ sepOps ++ rest)
termination_by structural fuel

/-- The field loop of `Put::debug` for `Struct`: `name=` then the field
printer at the running offset; `", "` and the offset bump only between
consecutive fields. -/
def debugStructFields (fuel : Nat) (env : Env) (addr : Location) (off : Int)
    (fields : List (String × Ty)) : Except Err (List CoreOp) :=
  match fuel with
  | 0 => .error .DepthLimit
  | f + 1 =>
    match fields with
    | [] => .ok []
    | (name, fty) :: rest => do
        let inner ← Put.debug f (addr.offset off) fty env
        if rest.isEmpty then .ok (putStrOps name ++ putCharOps 61 ++ inner)
        else do
          let sz ← fty.get_size env
          let rops ← debugStructFields f env addr (off + Int.ofNat sz) rest
          .ok (putStrOps name ++ putCharOps 61 ++ inner ++ sepOps ++ rops)
termination_by structural fuel

/-- The component loop of `Put::debug` for `Tuple`. -/
def debugTupleTys (fuel : Nat) (env : Env) (addr : Location) (off : Int)
    (types : List Ty) : Except Err (List CoreOp) :=
  match fuel with
  | 0 => .error .DepthLimit
  | f + 1 =>
    match types with
    | [] => .ok []
    | ty :: rest => do
        let inner ← Put.debug f (addr.offset off) ty env
        if rest.isEmpty then .ok inner
        else do
          let sz ← ty.get_size env
          let rops ← debugTupleTys f env addr (off + Int.ofNat sz) rest
          .ok (inner ++ sepOps ++ rops)
termination_by structural fuel

/-- The variant loop of `Put::debug` for `EnumUnion`: compare the tag
cell (the last cell of the region) against each variant index and print
`"{t} of {name} "` plus the payload inside an `If`. -/
def debugEnumUnionFields (fuel : Nat) (env : Env) (data_addr tag_addr : Location)
    (t : Ty) (variants : List String) (fields : List (String × Ty)) :
    Except Err (List CoreOp) :=
  match fuel with
  | 0 => .error .DepthLimit
  | f + 1 =>
    match fields with
    | [] => .ok []
    | fv :: rest =>
        match Ty.variant_index variants fv.1 with
        | some tag_value => do
            let inner ← Put.debug f data_addr fv.2 env
            let rops ← debugEnumUnionFields f env data_addr tag_addr t variants rest
            .ok ([.Set .A (Int.ofNat tag_value), .IsEqual tag_addr .A .B, .If .B]
              ++ putStrOps (t.fmt ++ " of " ++ fv.1 ++ " ") ++ inner ++ [.End] ++ rops)
        | Option.none => .error (.VariantNotFound t fv.1)
termination_by structural fuel

/-- The field loop of `Put::debug` for `Union`: `name: Ty = ` then the
field printer at the union's base address. -/
def debugUnionFields (fuel : Nat) (env : Env) (addr : Location)
    (fields : List (String × Ty)) : Except Err (List CoreOp) :=
  match fuel with
  | 0 => .error .DepthLimit
  | f + 1 =>
    match fields with
    | [] => .ok []
    | (field_name, field_type) :: rest => do
        let inner ← Put.debug f addr field_type env
        let head := putStrOps field_name ++ putCharOps 58 ++ putCharOps 32
          ++ putStrOps field_type.fmt ++ putCharOps 32 ++ putCharOps 61 ++ putCharOps 32
          ++ inner
        if rest.isEmpty then .ok head
        else do
          let rops ← debugUnionFields f env addr rest
          .ok (head ++ sepOps ++ rops)
termination_by structural fuel

/-- `Put::display`: emit VM ops that print the value of type `t0` at
`addr` for humans (`src/src/lir/expr/ops/io.rs` lines 427-564); falls
back to `Put::debug` for shapes without a special display form. -/
def Put.display (fuel : Nat) (addr : Location) (t0 : Ty) (env : Env) :
    Except Err (List CoreOp) :=
  match fuel with
  | 0 => .error .DepthLimit
  | f + 1 => do
    let t ← t0.simplify_until_concrete env
    match t with
    | .cell => .ok [.Put addr .stdout_int]
    | .char => .ok [.Put addr .stdout_char]
    | .pointer m inner => do
        let is_str ← Ty.equals inner .char env
        if is_str then
          .ok [.GetAddress addr.deref .A,
               .While (Location.A.deref),
               .Put (Location.A.deref) .stdout_char,
               .Next .A Option.none,
               .End]
        else Put.debug (f + 1) addr (.pointer m inner) env
    | .enum_ variants => .ok (enumDisplayOps (.enum_ variants) addr variants)
    | .array ty n => do
        let ty_size ← ty.get_size env
        let is_char ← Ty.equals ty .char env
        if is_char then
          .ok [.Many [.GetAddress addr .A,
                      .Set .B (Int.ofNat n),
                      .While .B,
                      .If (Location.A.deref),
                      .Put (Location.A.deref) .stdout_char,
                      .Next .A Option.none,
                      .Dec .B,
                      .Else,
                      .Set .B 0,
                      .End,
                      .End]]
        else do
          let is_int ← Ty.equals ty .int env
          if is_int then .ok [.Many (arrayLoopOps addr (Int.ofNat n) .stdout_int)]
          else do
            let is_float ← Ty.equals ty .float env
            if is_float then .ok [.Many (arrayLoopOps addr (Int.ofNat n) .stdout_float)]
            else do
              let elems ← debugElems f env addr ty (Int.ofNat ty_size) 0 n
              .ok (putCharOps 91 ++ elems ++ putCharOps 93)
    | t' => Put.debug (f + 1) addr t' env

end

/-- The predicate `Get::can_apply` applies to the simplified type
(`src/src/lir/expr/ops/io.rs` lines 17-24): a pointer to `Char`, `Int`
or `Float` applies exactly when it is mutable; everything else does
not. -/
def Get.applicable : Ty → Bool
  | .pointer m x =>
      match x with
      | .char => m.is_mutable
      | .int => m.is_mutable
      | .float => m.is_mutable
      | _ => false
  | _ => false

/-- `Get`, the read-from-stdin unary operator: `Get::can_apply`
(`src/src/lir/expr/ops/io.rs` lines 15-26): the simplified type must be
a mutable pointer to `Char`, `Int` or `Float`. -/
def Get.can_apply (ty : Ty) (env : Env) : Except Err Bool :=
  (ty.simplify_until_concrete env).map Get.applicable

/-- `Get::compile_types` (`src/src/lir/expr/ops/io.rs` lines 39-69):
test the operand type against the three mutable pointer types with the
env-aware `Type::equals`, emit the matching `Get` op followed by
`Pop(None, 1)`, or fail with `UnsupportedOperation`. -/
def Get.compile_types (ty : Ty) (env : Env) : Except Err (List CoreOp) := do
  let is_char ← Ty.equals ty (.pointer .Mutable .char) env
  if is_char then
    .ok [.Get (Location.SP.deref.deref) .stdin_char, .Pop Option.none 1]
  else do
    let is_int ← Ty.equals ty (.pointer .Mutable .int) env
    if is_int then
      .ok [.Get (Location.SP.deref.deref) .stdin_int, .Pop Option.none 1]
    else do
      let is_float ← Ty.equals ty (.pointer .Mutable .float) env
      if is_float then
        .ok [.Get (Location.SP.deref.deref) .stdin_float, .Pop Option.none 1]
      else .error .UnsupportedOperation

/-- `Put::compile_types` (`src/src/lir/expr/ops/io.rs` lines 584-604):
print the `size_of(ty)`-cell value on top of the stack in the chosen
mode, then `Pop(None, size)` it. -/
def Put.compile_types (fuel : Nat) (self : Put) (ty : Ty) (env : Env) :
    Except Err (List CoreOp) := do
  let size ← ty.get_size env
  let ty' ← ty.simplify_until_concrete env
  let addr := (Location.SP.deref).offset (-(Int.ofNat size) + 1)
  let inner ←
    match self with
    | .Debug => Put.debug fuel addr ty' env
    | .Display => Put.display fuel addr ty' env
  .ok (inner ++ [.Pop Option.none size])

/-! ## Expressions and procedures -/

/-- Modelled from the spec: the typed expression tree (§3).  The
expression module itself is not under `src/`; the claims only need the
body of a procedure as data whose identity is preserved, so the
operations the embedded code performs on bodies (`substitute_types` and
`with`-declaration wrapping, both applied during monomorphization) are
recorded as explicit nodes. -/
inductive Expr where
  | var (name : String)
  | substTypesNode (e : Expr) (names : List String) (tys : List Ty)
  | withDeclsNode (e : Expr) (decls : List (String × Ty))
deriving Repr

/-- `Expr::substitute_types(names, tys)` on a body, recorded
syntactically. -/
def Expr.substitute_types (e : Expr) (names : List String) (tys : List Ty) : Expr :=
  .substTypesNode e names tys

/-- `Expr::with(decls)` wrapping a body in type bindings, recorded
syntactically. -/
def Expr.with_decls (e : Expr) (decls : List (String × Ty)) : Expr :=
  .withDeclsNode e decls

/-- A monomorphic procedure (`src/src/lir/expr/procedure.rs` lines
10-18): a unique mangled label, named arguments with their types, a
return type, a body, and a compiled flag. -/
structure Procedure where
  mangled_name : String
  args : List (String × Ty)
  ret : Ty
  body : Expr
  compiled : Bool
deriving Repr

/-- Modelled from the spec: `Env::define_args(args) → args_size` (§6,
§4.6): bind each argument in the scope and return the total size of the
argument region; an unsized argument type fails.  Argument mutability is
not part of this (monomorphic) argument list, so the bindings are
recorded immutable. -/
def Env.define_args (env : Env) (args : List (String × Ty)) : Except Err (Env × Nat) :=
  args.foldlM
    (fun acc nt => do
      let s ← nt.2.get_size acc.1
      .ok (acc.1.define_var nt.1 .Immutable nt.2, acc.2 + s))
    (env, 0)

/-- `Procedure::compile_expr` (`src/src/lir/expr/procedure.rs` lines
68-99).  The body's own compilation is out of scope for the claims, so
the expression compiler is a parameter `compileBody`; the function
returns the complete op stream this construct appends to the output
sink, in emission order. -/
def Procedure.compile_expr (p : Procedure) (env : Env)
    (compileBody : Expr → Env → Except Err (List CoreOp)) :
    Except Err (List CoreOp) := do
  let new_env := env.new_scope
  let (new_env, args_size) ← new_env.define_args p.args
  let ret_size ← p.ret.get_size env
  let bodyOps ← compileBody p.body new_env
  .ok ([.Fn p.mangled_name]
    ++ bodyOps
    ++ [.Copy ((Location.FP.deref).offset (1 - (args_size : Int)))
              ((Location.SP.deref).offset (1 - (ret_size : Int)))
              ret_size,
        .Pop Option.none args_size,
        .End,
        .SetLabel .A p.mangled_name,
        .Push .A 1])

/-- The `Procedure` constructed by `PolyProcedure::monomorphize`
(`Procedure::new(Some(mangled_name), args, ret, body)` in
`src/src/lir/expr/procedure/poly.rs`; the `procedure/mod.rs` defining
this constructor is not under `src/`, so the structure is modelled from
the spec §4.6/§4.7: it carries the mangled name, the arguments with
their mutabilities, the return type and the body). -/
structure MonoProc where
  mangled_name : String
  args : List (String × Mutability × Ty)
  ret : Ty
  body : Expr
deriving Repr

/-- A polymorphic procedure (`src/src/lir/expr/procedure/poly.rs` lines
21-38).  The source guards `monomorphs` and `has_type_checked` behind
`Arc<RwLock<_>>`; in this sequential functional model they are plain
fields, and the mutating operations return the updated value. -/
structure PolyProcedure where
  name : String
  ty_params : List (String × Option Ty)
  args : List (String × Mutability × Ty)
  ret : Ty
  body : Expr
  monomorphs : List (String × MonoProc)
  has_type_checked : Bool
deriving Repr

/-- `PolyProcedure::type_param_names`. -/
def PolyProcedure.type_param_names (p : PolyProcedure) : List String :=
  p.ty_params.map Prod.fst

/-- Modelled from the spec: a deterministic textual form standing in for
the derived debug rendering of a `Vec<Type>` used inside mangled names
(§4.7 only requires the mangled name to be deterministic). -/
def fmtTys (ts : List Ty) : String :=
  "[" ++ String.intercalate ", " (ts.map Ty.fmt) ++ "]"

/-- Modelled from the spec: a deterministic textual form standing in for
the derived debug rendering of an argument list used inside mangled
names. -/
def fmtArgList (args : List (String × Mutability × Ty)) : String :=
  "[" ++ String.intercalate ", "
    (args.map (fun a =>
      "(" ++ a.1 ++ ", " ++ (if a.2.1.is_mutable then "mut" else "const") ++ ", "
        ++ a.2.2.fmt ++ ")"))
    ++ "]"

/-- The monomorphization prefix of `PolyProcedure::monomorphize`
(`src/src/lir/expr/procedure/poly.rs` lines 137-175): simplify the type
arguments to concrete form, distribute them over the argument types and
the return type by β-reducing `Apply(Poly(ty_params, ·), args)`, and
derive the deterministic mangled name
`__MONOMORPHIZED_({ty_args:?}){name}{args:?}{ret:?}` (note: the raw
`ty_args`, the substituted `args` and the substituted `ret`). -/
def PolyProcedure.mono_prefix (p : PolyProcedure) (env : Env) (ty_args : List Ty) :
    Except Err (List Ty × List (String × Mutability × Ty) × Ty × String) := do
  let simplified_ty_args ← ty_args.mapM (fun t => t.simplify_until_concrete env)
  let bind_type_args : Ty → Except Err Ty := fun t =>
    (Ty.apply (.poly p.ty_params t) simplified_ty_args).simplify_until_concrete env
  let args ← p.args.mapM (fun a => do
    let t ← bind_type_args a.2.2
    .ok (a.1, a.2.1, t))
  let ret ← bind_type_args p.ret
  let mangled_name :=
    "__MONOMORPHIZED_(" ++ fmtTys ty_args ++ ")" ++ p.name ++ fmtArgList args ++ ret.fmt
  .ok (simplified_ty_args, args, ret, mangled_name)

/-- `PolyProcedure::monomorphize` (`src/src/lir/expr/procedure/poly.rs`
lines 116-216).  The type checking of the freshly built monomorph calls
into code outside `src/`, so it is a parameter `tc`.  The commented-out
bound-checking block of the source (lines 122-135) is, faithfully, not
performed.  Returns the monomorph together with the procedure value
carrying the (possibly extended) memoization cache. -/
def PolyProcedure.monomorphize (p : PolyProcedure) (tc : MonoProc → Except Err Unit)
    (env : Env) (ty_args : List Ty) : Except Err (MonoProc × PolyProcedure) := do
  let (simplified_ty_args, args, ret, mangled_name) ← p.mono_prefix env ty_args
  match p.monomorphs.lookup mangled_name with
  | some m => .ok (m, p)
  | Option.none => do
      let body := (p.body.substitute_types p.type_param_names simplified_ty_args).with_decls
        (p.type_param_names.zip simplified_ty_args)
      let monomorph : MonoProc := ⟨mangled_name, args, ret, body⟩
      tc monomorph
      match p.monomorphs.lookup mangled_name with
      | some m => .ok (m, p)
      | Option.none =>
          .ok (monomorph,
            { p with monomorphs := p.monomorphs ++ [(mangled_name, monomorph)] })

/-- The type-parameter definition loop at the start of
`PolyProcedure::type_check` (`src/src/lir/expr/procedure/poly.rs` lines
260-270): a bounded parameter is defined as an immutable variable of the
bound type and as a type alias for the bound; an unbounded parameter is
defined as the fresh nominal type `Unit(name, None)`. -/
def defineTyParams (env : Env) : List (String × Option Ty) → Env
  | [] => env
  | (n, some ty) :: rest =>
      defineTyParams ((env.define_var n .Immutable ty).define_type n ty) rest
  | (n, Option.none) :: rest =>
      defineTyParams (env.define_type n (.unit n .none)) rest

/-- `PolyProcedure::type_check` (`src/src/lir/expr/procedure/poly.rs`
lines 247-303).  The flag read/write is modelled by taking and returning
the procedure value; everything after the type-parameter definitions
(argument binding, expected-return registration, the argument / return /
body checks, which all call code outside `src/`) is the parameter
`checkRest`. -/
def PolyProcedure.type_check (p : PolyProcedure)
    (checkRest : Env → Except Err Unit) (env : Env) :
    Except Err Unit × PolyProcedure :=
  if p.has_type_checked then (.ok (), p)
  else
    let p' := { p with has_type_checked := true }
    let new_env := defineTyParams env.new_scope p.ty_params
    (checkRest new_env, p')

/-- The serialized image of a `PolyProcedure`: the `#[serde(skip)]`
attributes on `monomorphs` and `has_type_checked`
(`src/src/lir/expr/procedure/poly.rs` lines 33-37) exclude exactly those
two fields from the wire format. -/
structure SerializedPolyProcedure where
  name : String
  ty_params : List (String × Option Ty)
  args : List (String × Mutability × Ty)
  ret : Ty
  body : Expr
deriving Repr

/-- Serialization of a `PolyProcedure` (derived `Serialize` with the two
skipped fields). -/
def PolyProcedure.serialize (p : PolyProcedure) : SerializedPolyProcedure :=
  ⟨p.name, p.ty_params, p.args, p.ret, p.body⟩

/-- Deserialization (derived `Deserialize`): skipped fields are
reconstructed from their defaults - an empty monomorph cache and a
cleared type-checked flag. -/
def PolyProcedure.deserialize (s : SerializedPolyProcedure) : PolyProcedure :=
  ⟨s.name, s.ty_params, s.args, s.ret, s.body, [], false⟩

/-- `impl PartialEq for PolyProcedure`
(`src/src/lir/expr/procedure/poly.rs` lines 40-48): equality is decided
by exactly the name, type parameters, arguments, return type and body;
the caches are ignored. -/
def PolyProcedure.peq (p q : PolyProcedure) : Prop :=
  p.name = q.name ∧ p.ty_params = q.ty_params ∧ p.args = q.args
    ∧ p.ret = q.ret ∧ p.body = q.body

/-! ## The error model (`src/src/lir/error.rs`) -/

/-- `Error::annotate` (`src/src/lir/error.rs` lines 137-148): wrapping a
plain error produces `Annotated(err, a)`; wrapping an already annotated
error unions the new annotation with the previous one at the outermost
level, and recursively annotates the inner error with the new
annotation. -/
def Err.annotate : Err → Annot → Err
  | .Annotated err prev, a => .Annotated (Err.annotate err a) (Annot.union a prev)
  | e, a => .Annotated e a

/-- The number of `Annotated` wrappers around an error. -/
def Err.depth : Err → Nat
  | .Annotated e _ => Err.depth e + 1
  | _ => 0

/-- The outermost annotation of an error, if any. -/
def Err.outer_annot : Err → Option Annot
  | .Annotated _ a => some a
  | _ => Option.none

/-! ## VM execution

Modelled from the spec: the VM interpreter for the emitted `CoreOp`s
lives in modules not under `src/` (`vm/interpreter/core.rs`,
`vm/interpreter/std.rs` and the `asm` lowering), so the semantics of the
structured op subset the code generator emits is modelled here from
§4.5/§6 and the `TestingDevice` (which is under `src/`): `put` in char
mode records the raw cell value, in int mode the decimal digits
(`TestingDevice::put_int`). -/

/-- The machine state: registers, a flat tape, and the stdout record. -/
structure VMState where
  a : Int
  b : Int
  c : Int
  sp : Int
  fp : Int
  tape : List Int
  out : List Int
deriving Repr, DecidableEq

/-- Read the tape cell at an address. -/
def tapeGet (s : VMState) (i : Int) : Option Int :=
  if i < 0 then Option.none else s.tape[i.toNat]?

mutual

/-- The address a non-register location refers to: `deref l` refers to
the cell whose address is the value of `l`; `offset` shifts it. -/
def addrOf (s : VMState) : Location → Option Int
  | .deref l => readLoc s l
  | .offset l n => (addrOf s l).map (· + n)
  | _ => Option.none

/-- The value a location holds: registers directly, memory locations
through the tape. -/
def readLoc (s : VMState) : Location → Option Int
  | .A => some s.a
  | .B => some s.b
  | .C => some s.c
  | .SP => some s.sp
  | .FP => some s.fp
  | .deref l => (readLoc s l).bind (tapeGet s)
  | .offset l n => ((addrOf s l).map (· + n)).bind (tapeGet s)

end

/-- Write a value into a location. -/
def writeLoc (s : VMState) (loc : Location) (v : Int) : Option VMState :=
  match loc with
  | .A => some { s with a := v }
  | .B => some { s with b := v }
  | .C => some { s with c := v }
  | .SP => some { s with sp := v }
  | .FP => some { s with fp := v }
  | _ =>
      (addrOf s loc).bind fun i =>
        if i < 0 || s.tape.length ≤ i.toNat then Option.none
        else some { s with tape := s.tape.set i.toNat v }

/-- Split a flat op stream after a block opener into the block body (up
to the matching `End`) and the remainder, tracking nesting depth. -/
def splitBlock : List CoreOp → Nat → Option (List CoreOp × List CoreOp)
  | [], _ => Option.none
  | op :: rest, d =>
      match op with
      | .End =>
          if d = 0 then some ([], rest)
          else (splitBlock rest (d - 1)).map (fun p => (op :: p.1, p.2))
      | .If _ => (splitBlock rest (d + 1)).map (fun p => (op :: p.1, p.2))
      | .While _ => (splitBlock rest (d + 1)).map (fun p => (op :: p.1, p.2))
      | .Fn _ => (splitBlock rest (d + 1)).map (fun p => (op :: p.1, p.2))
      | _ => (splitBlock rest d).map (fun p => (op :: p.1, p.2))

/-- Split an `If` body at its top-level `Else`, if present. -/
def splitElse : List CoreOp → Nat → Option (List CoreOp × List CoreOp)
  | [], _ => Option.none
  | op :: rest, d =>
      match op with
      | .Else =>
          if d = 0 then some ([], rest)
          else (splitElse rest d).map (fun p => (op :: p.1, p.2))
      | .End =>
          if d = 0 then Option.none
          else (splitElse rest (d - 1)).map (fun p => (op :: p.1, p.2))
      | .If _ => (splitElse rest (d + 1)).map (fun p => (op :: p.1, p.2))
      | .While _ => (splitElse rest (d + 1)).map (fun p => (op :: p.1, p.2))
      | .Fn _ => (splitElse rest (d + 1)).map (fun p => (op :: p.1, p.2))
      | _ => (splitElse rest d).map (fun p => (op :: p.1, p.2))

/-- The decimal character codes `put` in int mode produces
(`TestingDevice::put_int`, `src/src/vm/interpreter/mod.rs`). -/
def intCharCodes (v : Int) : List Int :=
  (toString v).toList.map (fun c => Int.ofNat c.toNat)

/-- A fuel-bounded interpreter for the structured op subset the code
generator emits (`Set`/`Put`/`Move`/`GetAddress`/`Next`/`Dec`/
`IsEqual`/`Pop`/`If`-`Else`-`End`/`While`-`End`/`Many`).  Ops the
embedded programs never execute are left undefined (`none`). -/
def exec (fuel : Nat) (s : VMState) (ops : List CoreOp) : Option VMState :=
  match fuel with
  | 0 => Option.none
  | f + 1 =>
    match ops with
    | [] => some s
    | op :: rest =>
      match op with
      | .Set dst v => (writeLoc s dst v).bind (fun s' => exec f s' rest)
      | .Put src mode =>
          (readLoc s src).bind fun v =>
            match mode with
            | .stdout_char => exec f { s with out := s.out ++ [v] } rest
            | .stdout_int => exec f { s with out := s.out ++ intCharCodes v } rest
            | .stdout_float => Option.none
      | .Move src dst =>
          (readLoc s src).bind fun v =>
            (writeLoc s dst v).bind fun s' => exec f s' rest
      | .GetAddress l dst =>
          (addrOf s l).bind fun v =>
            (writeLoc s dst v).bind fun s' => exec f s' rest
      | .Next dst n =>
          (readLoc s dst).bind fun v =>
            (writeLoc s dst (v + n.getD 1)).bind fun s' => exec f s' rest
      | .Dec dst =>
          (readLoc s dst).bind fun v =>
            (writeLoc s dst (v - 1)).bind fun s' => exec f s' rest
      | .IsEqual x y dst =>
          (readLoc s x).bind fun vx =>
            (readLoc s y).bind fun vy =>
              (writeLoc s dst (if vx = vy then 1 else 0)).bind fun s' => exec f s' rest
      | .Pop _ n => exec f { s with sp := s.sp - n } rest
      | .If cond =>
          (splitBlock rest 0).bind fun br =>
            (readLoc s cond).bind fun v =>
              match splitElse br.1 0 with
              | some te => exec f s ((if v = 0 then te.2 else te.1) ++ br.2)
              | Option.none => exec f s ((if v = 0 then [] else br.1) ++ br.2)
      | .While cond =>
          (splitBlock rest 0).bind fun br =>
            (readLoc s cond).bind fun v =>
              if v = 0 then exec f s br.2
              else exec f s (br.1 ++ (CoreOp.While cond :: rest))
      | .Many ops2 => exec f s (ops2 ++ rest)
      | _ => Option.none

/-! ## Predicates used by the theorem statements -/

mutual

/-- An op is stack-neutral when it never moves `SP`: everything except
`Push` and `Pop` (with `Many` judged by its contents). -/
def stackNeutralOp : CoreOp → Bool
  | .Push _ _ => false
  | .Pop _ _ => false
  | .Many ops => stackNeutralOps ops
  | _ => true

/-- All ops in a list are stack-neutral. -/
def stackNeutralOps : List CoreOp → Bool
  | [] => true
  | op :: rest => stackNeutralOp op && stackNeutralOps rest

end

mutual

/-- Does an op contain a `While` loop (looking inside `Many` groups)? -/
def containsWhileOp : CoreOp → Bool
  | .While _ => true
  | .Many ops => containsWhileOps ops
  | _ => false

/-- Does any op of a list contain a `While` loop? -/
def containsWhileOps : List CoreOp → Bool
  | [] => false
  | op :: rest => containsWhileOp op || containsWhileOps rest

end

/-- Is a result the `InvalidTemplateArgs` error? -/
def isInvalidTemplateArgsErr {α : Type} : Except Err α → Bool
  | .error (.InvalidTemplateArgs _) => true
  | _ => false

/-- Is a result a success? -/
def isOkResult {α : Type} : Except Err α → Bool
  | .ok _ => true
  | _ => false

/-! ## Theorems -/

/-- Monadic bind on a success, for rewriting. -/
@[simp] theorem except_bind_ok {α β : Type} (a : α) (f : α → Except Err β) :
    (Except.ok a >>= f) = f a := rfl

/-- Monadic bind on an error, for rewriting. -/
@[simp] theorem except_bind_error {α β : Type} (e : Err) (f : α → Except Err β) :
    ((Except.error e : Except Err α) >>= f) = .error e := rfl

/-- C6 counterexample: annotating an already annotated error does gain an
additional `Annotated` nesting level (depth 1 becomes depth 2), even
though the outermost annotation is the claimed union. -/
theorem c6_counterexample :
    Err.depth ((Err.Annotated (.SymbolNotDefined "x") ⟨[(0, 1)]⟩).annotate ⟨[(2, 3)]⟩) = 2
    ∧ Err.depth (Err.Annotated (.SymbolNotDefined "x") ⟨[(0, 1)]⟩) = 1
    ∧ Err.outer_annot ((Err.Annotated (.SymbolNotDefined "x") ⟨[(0, 1)]⟩).annotate ⟨[(2, 3)]⟩)
        = some (Annot.union ⟨[(2, 3)]⟩ ⟨[(0, 1)]⟩) :=
  ⟨rfl, rfl, rfl⟩

/-- C6 (amended): annotating `Annotated(e, a1)` with `a2` makes the
outermost annotation the union of `a2` with `a1`, but it also
recursively annotates the inner error with `a2`, so every `annotate`
call adds exactly one `Annotated` nesting level. -/
theorem c6_annotate_merges_outer (e : Err) (a1 a2 : Annot) :
    (Err.Annotated e a1).annotate a2 = .Annotated (e.annotate a2) (Annot.union a2 a1)
    ∧ ∀ (e' : Err) (a : Annot), Err.depth (e'.annotate a) = Err.depth e' + 1 := by
  refine ⟨rfl, ?_⟩
  intro e' a
  induction e' with
  | Annotated inner prev ih => simp [Err.annotate, Err.depth, ih]
  | _ => simp [Err.annotate, Err.depth]

/-- C9: serializing and deserializing a `PolyProcedure` yields a value
equal to the original under the source's `PartialEq` (which compares
exactly name, type parameters, arguments, return type and body); the
skipped monomorph cache and type-check flag come back empty and
cleared, and `PartialEq` indeed ignores them. -/
theorem c9_serde_roundtrip (p : PolyProcedure) :
    PolyProcedure.peq (PolyProcedure.deserialize p.serialize) p
    ∧ (PolyProcedure.deserialize p.serialize).monomorphs = []
    ∧ (PolyProcedure.deserialize p.serialize).has_type_checked = false
    ∧ ∀ (monos : List (String × MonoProc)) (flag : Bool),
        PolyProcedure.peq p { p with monomorphs := monos, has_type_checked := flag } := by
  refine ⟨⟨rfl, rfl, rfl, rfl, rfl⟩, rfl, rfl, ?_⟩
  intro monos flag
  exact ⟨rfl, rfl, rfl, rfl, rfl⟩

/-- The `types` table after the type-parameter definition loop: each
parameter is bound to its declared bound, or to the fresh nominal
`Unit(param, None)` when unbounded. -/
theorem defineTyParams_types (e : Env) (ps : List (String × Option Ty)) :
    (defineTyParams e ps).types
      = (ps.map (fun q => (q.1,
          match q.2 with
          | some b => b
          | Option.none => Ty.unit q.1 .none))).reverse ++ e.types := by
  induction ps generalizing e with
  | nil => simp [defineTyParams]
  | cons q rest ih =>
      obtain ⟨n, ob⟩ := q
      cases ob with
      | some b => simp [defineTyParams, ih, Env.define_type, Env.define_var]
      | none => simp [defineTyParams, ih, Env.define_type]

/-- The `vars` table after the type-parameter definition loop: each
bounded parameter is additionally bound as an immutable variable of its
bound type; unbounded parameters add no variable. -/
theorem defineTyParams_vars (e : Env) (ps : List (String × Option Ty)) :
    (defineTyParams e ps).vars
      = (ps.filterMap (fun q => q.2.map (fun b => (q.1, Mutability.Immutable, b)))).reverse
        ++ e.vars := by
  induction ps generalizing e with
  | nil => simp [defineTyParams]
  | cons q rest ih =>
      obtain ⟨n, ob⟩ := q
      cases ob with
      | some b => simp [defineTyParams, ih, Env.define_type, Env.define_var]
      | none => simp [defineTyParams, ih, Env.define_type]

/-- C5: `PolyProcedure::type_check` runs at most once, guarded by the
set-once `has_type_checked` flag: with the flag set it returns `Ok(())`
immediately and changes nothing; on the first run it sets the flag,
defines each bounded type parameter to its bound and each unbounded one
to the fresh nominal `Unit(param, None)` (per `defineTyParams_types` /
`defineTyParams_vars`), and only then checks the body against the return
type; any subsequent call returns `Ok(())` immediately. -/
theorem c5_poly_type_check_once (p : PolyProcedure)
    (checkRest : Env → Except Err Unit) (env : Env) :
    (p.has_type_checked = true → p.type_check checkRest env = (.ok (), p))
    ∧ (p.has_type_checked = false →
        p.type_check checkRest env
          = (checkRest (defineTyParams env.new_scope p.ty_params),
             { p with has_type_checked := true })
        ∧ ({ p with has_type_checked := true } : PolyProcedure).type_check checkRest env
            = (.ok (), { p with has_type_checked := true })) := by
  constructor
  · intro h
    simp [PolyProcedure.type_check, h]
  · intro h
    constructor
    · simp [PolyProcedure.type_check, h]
    · simp [PolyProcedure.type_check]

/-- C5 witness at a concrete procedure with one bounded and one
unbounded parameter. -/
theorem c5_witness :
    ((⟨"p", [("T", some .int), ("U", Option.none)], [], .none, .var "x", [], false⟩ :
        PolyProcedure).type_check (fun _ => .ok ()) ⟨[], []⟩)
      = (.ok (), ⟨"p", [("T", some .int), ("U", Option.none)], [], .none, .var "x", [], true⟩) := by
  have h := (c5_poly_type_check_once
    ⟨"p", [("T", some .int), ("U", Option.none)], [], .none, .var "x", [], false⟩
    (fun _ => .ok ()) ⟨[], []⟩).2 rfl
  exact h.1

/-- C1: for a monomorphic procedure whose arguments bind with total size
`args_size` and whose return type has size `ret_size`,
`Procedure::compile_expr` emits, in order: `Fn(mangled_name)`, the
compiled body, a `Copy` from `SP.deref().offset(1 - ret_size)` to
`FP.deref().offset(1 - args_size)` of `ret_size` cells,
`Pop(args_size)`, `End`, and after the `End` a `SetLabel(A, name)`
followed by `Push(A, 1)`, which leaves the one-cell procedure label on
the stack. -/
theorem c1_procedure_compile_expr (p : Procedure) (env : Env)
    (compileBody : Expr → Env → Except Err (List CoreOp))
    (env' : Env) (args_size ret_size : Nat) (bodyOps : List CoreOp)
    (h1 : env.new_scope.define_args p.args = .ok (env', args_size))
    (h2 : p.ret.get_size env = .ok ret_size)
    (h3 : compileBody p.body env' = .ok bodyOps) :
    p.compile_expr env compileBody
      = .ok ([.Fn p.mangled_name]
          ++ bodyOps
          ++ [.Copy ((Location.FP.deref).offset (1 - (args_size : Int)))
                    ((Location.SP.deref).offset (1 - (ret_size : Int)))
                    ret_size,
              .Pop Option.none args_size,
              .End,
              .SetLabel .A p.mangled_name,
              .Push .A 1]) := by
  simp [Procedure.compile_expr, h1, h2, h3]

/-- C1 witness: the identity procedure on `Int` (`args_size = ret_size =
1`, empty body stream from the parameterized body compiler). -/
theorem c1_witness :
    Procedure.compile_expr ⟨"f", [("x", .int)], .int, .var "x", false⟩ ⟨[], []⟩
        (fun _ _ => .ok [])
      = .ok ([.Fn "f"]
          ++ []
          ++ [.Copy ((Location.FP.deref).offset (1 - ((1 : Nat) : Int)))
                    ((Location.SP.deref).offset (1 - ((1 : Nat) : Int)))
                    1,
              .Pop Option.none 1,
              .End,
              .SetLabel .A "f",
              .Push .A 1]) :=
  c1_procedure_compile_expr ⟨"f", [("x", .int)], .int, .var "x", false⟩ ⟨[], []⟩
    (fun _ _ => .ok []) ⟨[], [("x", .Immutable, .int)]⟩ 1 1 []
    (by rfl) (by rfl) (by rfl)

/-- `Get::can_apply`'s simplified-type predicate, named for the proofs. -/
theorem get_applicable_iff (t : Ty) :
    Get.applicable t = true
      ↔ (t = .pointer .Mutable .char ∨ t = .pointer .Mutable .int
          ∨ t = .pointer .Mutable .float) := by
  cases t with
  | pointer m x =>
      cases m <;> cases x <;> simp [Get.applicable, Mutability.is_mutable]
  | _ => simp [Get.applicable]

/-- `pure` into `Except` is `ok`, for rewriting. -/
@[simp] theorem except_pure {α : Type} (a : α) :
    (pure a : Except Err α) = .ok a := rfl

/-- Inversion for a successful monadic bind over `Except`. -/
theorem except_bind_eq_ok {α β : Type} {x : Except Err α} {f : α → Except Err β} {b : β}
    (h : x >>= f = .ok b) : ∃ a, x = .ok a ∧ f a = .ok b := by
  cases x with
  | error e => simp at h
  | ok a => exact ⟨a, rfl, h⟩

/-- Appending a fresh key-value pair to an association list that does
not yet contain the key makes lookup of that key find the new value. -/
theorem lookup_append_of_none {β : Type} (l : List (String × β)) (k : String) (v : β)
    (h : l.lookup k = Option.none) : (l ++ [(k, v)]).lookup k = some v := by
  induction l with
  | nil => simp [List.lookup]
  | cons a rest ih =>
      obtain ⟨k', v'⟩ := a
      cases hk : (k == k') with
      | true => simp [List.lookup, hk] at h
      | false =>
          simp only [List.lookup, hk] at h
          simp only [List.cons_append, List.lookup, hk]
          exact ih h

/-- A successful `mapM'` over `Except` preserves list length. -/
theorem mapM_aux_len {α β : Type} (f : α → Except Err β) :
    ∀ (l : List α) (r : List β), List.mapM' f l = .ok r → r.length = l.length := by
  intro l
  induction l with
  | nil =>
      intro r' h'
      simp only [List.mapM'_nil, except_pure, Except.ok.injEq] at h'
      simp [← h']
  | cons a rest ih =>
      intro r' h'
      rw [List.mapM'_cons] at h'
      cases hfa : f a with
      | error e => rw [hfa] at h'; simp at h'
      | ok b =>
          rw [hfa] at h'
          cases hrest : List.mapM' f rest with
          | error e => rw [hrest] at h'; simp at h'
          | ok bs =>
              rw [hrest] at h'
              simp only [except_bind_ok, except_pure, Except.ok.injEq] at h'
              subst h'
              simp [ih bs hrest]

/-- A successful `mapM` over `Except` preserves list length. -/
theorem mapM_ok_length {α β : Type} (f : α → Except Err β) (l : List α) (r : List β)
    (h : l.mapM f = .ok r) : r.length = l.length := by
  refine mapM_aux_len f l r ?_
  rw [List.mapM'_eq_mapM]
  exact h

/-- Simplifying a type application whose argument count does not match
the template's parameter count fails with `InvalidTemplateArgs`. -/
theorem simplify_apply_poly_arity (env : Env) (params : List (String × Option Ty))
    (body : Ty) (args : List Ty) (h : params.length ≠ args.length) :
    (Ty.apply (.poly params body) args).simplify_until_concrete env
      = .error (.InvalidTemplateArgs (.apply (.poly params body) args)) := by
  rw [Ty.simplify_until_concrete, show simplifyDepthLimit = 511 + 1 from rfl]
  simp [simplifyGo, Ty.isConcreteHead, h]

/-- C2: `PolyProcedure::monomorphize` is idempotent and memoizing: a
successful call determines a mangled name computed deterministically
from the name, the raw type arguments, the substituted argument types
and the substituted return type; that name maps to the returned
`Procedure` in the monomorph cache afterwards, and a second call with
the same type arguments recomputes the identical name, hits the cache,
and returns the same memoized `Procedure` without changing the cache. -/
theorem c2_monomorphize_idempotent (p : PolyProcedure) (tc : MonoProc → Except Err Unit)
    (env : Env) (ty_args : List Ty) (q : MonoProc) (p' : PolyProcedure)
    (h : p.monomorphize tc env ty_args = .ok (q, p')) :
    p'.monomorphize tc env ty_args = .ok (q, p')
    ∧ ∃ sargs args ret m,
        p.mono_prefix env ty_args = .ok (sargs, args, ret, m)
        ∧ p'.mono_prefix env ty_args = .ok (sargs, args, ret, m)
        ∧ p'.monomorphs.lookup m = some q := by
  rcases hpre : p.mono_prefix env ty_args with e | ⟨sargs, args, ret, m⟩
  · simp [PolyProcedure.monomorphize, hpre] at h
  · simp only [PolyProcedure.monomorphize, hpre, except_bind_ok] at h
    cases hlook : p.monomorphs.lookup m with
    | some q0 =>
        rw [hlook] at h
        simp only [Except.ok.injEq, Prod.mk.injEq] at h
        obtain ⟨hq, hp⟩ := h
        subst hq
        subst hp
        refine ⟨?_, sargs, args, ret, m, rfl, hpre, hlook⟩
        simp [PolyProcedure.monomorphize, hpre, hlook]
    | none =>
        rw [hlook] at h
        cases htc : tc ⟨m, args, ret,
            (p.body.substitute_types p.type_param_names sargs).with_decls
              (p.type_param_names.zip sargs)⟩ with
        | error e => simp [htc] at h
        | ok u =>
            obtain ⟨⟩ := u
            simp only [htc, except_bind_ok, hlook, Except.ok.injEq, Prod.mk.injEq] at h
            obtain ⟨hq, hp⟩ := h
            have hpre' : p'.mono_prefix env ty_args = .ok (sargs, args, ret, m) := by
              rw [← hp]
              exact hpre
            have hlook' : p'.monomorphs.lookup m = some q := by
              rw [← hp, ← hq]
              exact lookup_append_of_none p.monomorphs m _ hlook
            refine ⟨?_, sargs, args, ret, m, rfl, hpre', hlook'⟩
            simp [PolyProcedure.monomorphize, hpre', hlook']

/-- C2 witness: a poly procedure whose cache already holds its monomorph
at the empty type-argument list; `monomorphize` hits the cache and is
idempotent. -/
theorem c2_witness :
    PolyProcedure.monomorphize
        ⟨"f", [], [], .int, .var "b",
          [("__MONOMORPHIZED_([])f[]Int", ⟨"__MONOMORPHIZED_([])f[]Int", [], .int, .var "b"⟩)],
          false⟩
        (fun _ => .ok ()) ⟨[], []⟩ []
      = .ok (⟨"__MONOMORPHIZED_([])f[]Int", [], .int, .var "b"⟩,
          ⟨"f", [], [], .int, .var "b",
            [("__MONOMORPHIZED_([])f[]Int", ⟨"__MONOMORPHIZED_([])f[]Int", [], .int, .var "b"⟩)],
            false⟩) :=
  (c2_monomorphize_idempotent
    ⟨"f", [], [], .int, .var "b",
      [("__MONOMORPHIZED_([])f[]Int", ⟨"__MONOMORPHIZED_([])f[]Int", [], .int, .var "b"⟩)],
      false⟩
    (fun _ => .ok ()) ⟨[], []⟩ []
    ⟨"__MONOMORPHIZED_([])f[]Int", [], .int, .var "b"⟩
    ⟨"f", [], [], .int, .var "b",
      [("__MONOMORPHIZED_([])f[]Int", ⟨"__MONOMORPHIZED_([])f[]Int", [], .int, .var "b"⟩)],
      false⟩
    (by rfl)).1

/-- C3 counterexample: the declared bound of a type parameter is not
enforced: a `PolyProcedure` with parameter `(T, Some(Int))`
monomorphized at the bound-violating argument `Bool` (`Int` ≠ `Bool`)
succeeds instead of failing with `InvalidTemplateArgs`. -/
theorem c3_counterexample :
    tyEq .int .bool = false
    ∧ isOkResult
        ((⟨"g", [("T", some .int)], [], .bool, .var "b", [], false⟩ :
            PolyProcedure).monomorphize (fun _ => .ok ()) ⟨[], []⟩ [.bool]) = true :=
  ⟨rfl, rfl⟩

/-- C3 (amended): if the number of type arguments differs from the
number of type parameters, `monomorphize` fails with
`InvalidTemplateArgs` (raised when the type application distributing the
arguments is simplified); declared bounds of type parameters are not
checked, so a bound-violating argument does not cause a failure. -/
theorem c3_arity_mismatch (p : PolyProcedure) (tc : MonoProc → Except Err Unit)
    (env : Env) (ty_args sargs : List Ty)
    (h1 : ty_args.mapM (fun t => t.simplify_until_concrete env) = .ok sargs)
    (h2 : p.ty_params.length ≠ ty_args.length) :
    isInvalidTemplateArgsErr (p.monomorphize tc env ty_args) = true := by
  have hlen : p.ty_params.length ≠ sargs.length := by
    rw [mapM_ok_length _ ty_args sargs h1]
    exact h2
  have hpre : isInvalidTemplateArgsErr (p.mono_prefix env ty_args) = true := by
    simp only [PolyProcedure.mono_prefix, h1, except_bind_ok]
    cases hargs : p.args with
    | nil =>
        simp [List.mapM.loop, simplify_apply_poly_arity env p.ty_params p.ret sargs hlen,
          isInvalidTemplateArgsErr]
    | cons a rest =>
        simp [List.mapM.loop, simplify_apply_poly_arity env p.ty_params a.2.2 sargs hlen,
          isInvalidTemplateArgsErr]
  cases hp : p.mono_prefix env ty_args with
  | error e =>
      rw [hp] at hpre
      cases e <;> simp [isInvalidTemplateArgsErr] at hpre ⊢ <;>
        simp only [PolyProcedure.monomorphize, hp, except_bind_error, isInvalidTemplateArgsErr]
  | ok tup =>
      rw [hp] at hpre
      simp [isInvalidTemplateArgsErr] at hpre

/-- C3 witness: zero parameters, one type argument: arity mismatch
yields `InvalidTemplateArgs`. -/
theorem c3_witness :
    isInvalidTemplateArgsErr
        ((⟨"g", [], [], .int, .var "b", [], false⟩ : PolyProcedure).monomorphize
          (fun _ => .ok ()) ⟨[], []⟩ [.int]) = true :=
  c3_arity_mismatch ⟨"g", [], [], .int, .var "b", [], false⟩ (fun _ => .ok ())
    ⟨[], []⟩ [.int] [.int] (by rfl) (by decide)

/-- Simplification is the identity on types whose head is already
concrete. -/
theorem simplify_concrete (env : Env) (t : Ty) (h : t.isConcreteHead = true) :
    t.simplify_until_concrete env = .ok t := by
  rw [Ty.simplify_until_concrete, show simplifyDepthLimit = 511 + 1 from rfl]
  simp [simplifyGo, h]

/-- `tyEq` against `Int` holds exactly for `Int`. -/
theorem tyEq_int_iff (t : Ty) : tyEq t .int = true ↔ t = .int := by
  cases t <;> first
    | exact ⟨(fun _ => rfl), (fun _ => rfl)⟩
    | exact ⟨(fun h => nomatch h), (fun h => nomatch h)⟩

/-- `tyEq` against `Float` holds exactly for `Float`. -/
theorem tyEq_float_iff (t : Ty) : tyEq t .float = true ↔ t = .float := by
  cases t <;> first
    | exact ⟨(fun _ => rfl), (fun _ => rfl)⟩
    | exact ⟨(fun h => nomatch h), (fun h => nomatch h)⟩

/-- `tyEq` against `Char` holds exactly for `Char`. -/
theorem tyEq_char_iff (t : Ty) : tyEq t .char = true ↔ t = .char := by
  cases t <;> first
    | exact ⟨(fun _ => rfl), (fun _ => rfl)⟩
    | exact ⟨(fun h => nomatch h), (fun h => nomatch h)⟩

/-- Sizes of the three primitive element types, by computation. -/
theorem get_size_prim (env : Env) :
    Ty.get_size .int env = .ok 1 ∧ Ty.get_size .float env = .ok 1
      ∧ Ty.get_size .char env = .ok 1 :=
  ⟨rfl, rfl, rfl⟩

/-- One unfolding step of `Type::equals` at the depth bound: simplify
both operands, then compare heads with one level of fuel consumed. -/
theorem equals_step (env : Env) (a b : Ty) :
    Ty.equals a b env = (do
      let a2 ← a.simplify_until_concrete env
      let b2 ← b.simplify_until_concrete env
      match a2, b2 with
      | .pointer m1 t1, .pointer m2 t2 => do
          let e ← tyEqualsGo 511 env t1 t2
          Except.ok (m1 == m2 && e)
      | .array t1 n1, .array t2 n2 => do
          let e ← tyEqualsGo 511 env t1 t2
          Except.ok (e && n1 == n2)
      | .tuple ts1, .tuple ts2 => tyEqualsListGo 511 env ts1 ts2
      | .struct_ f1, .struct_ f2 => tyEqualsFieldsGo 511 env f1 f2
      | .union_ f1, .union_ f2 => tyEqualsFieldsGo 511 env f1 f2
      | .enumUnion f1, .enumUnion f2 => tyEqualsFieldsGo 511 env f1 f2
      | .proc a1 r1, .proc a2 r2 => do
          let ea ← tyEqualsListGo 511 env a1 a2
          let er ← tyEqualsGo 511 env r1 r2
          Except.ok (ea && er)
      | .unit n1 t1, .unit n2 t2 => do
          let e ← tyEqualsGo 511 env t1 t2
          Except.ok (n1 == n2 && e)
      | x, y => Except.ok (tyEq x y)) := rfl

/-- A type `Type::equals` to one of the primitive print guards `Char`,
`Int` or `Float` simplifies exactly to that primitive. -/
theorem equals_prim_simplify (env : Env) (ty x : Ty)
    (hx : x = .char ∨ x = .int ∨ x = .float)
    (h : Ty.equals ty x env = .ok true) :
    ty.simplify_until_concrete env = .ok x := by
  rw [equals_step] at h
  obtain ⟨t2, hs, h⟩ := except_bind_eq_ok h
  rcases hx with rfl | rfl | rfl
  · rw [simplify_concrete env Ty.char rfl, except_bind_ok] at h
    cases t2 <;> injection h with h <;> first | exact hs | exact (Bool.noConfusion h)
  · rw [simplify_concrete env Ty.int rfl, except_bind_ok] at h
    cases t2 <;> injection h with h <;> first | exact hs | exact (Bool.noConfusion h)
  · rw [simplify_concrete env Ty.float rfl, except_bind_ok] at h
    cases t2 <;> injection h with h <;> first | exact hs | exact (Bool.noConfusion h)

/-- Conversely, a type that simplifies to one of `Char`, `Int` or
`Float` compares under `Type::equals` against any of the three exactly
as the simplified heads compare syntactically. -/
theorem equals_prim_of_simplify (env : Env) (ty x y : Ty)
    (hy : y = .char ∨ y = .int ∨ y = .float)
    (hsim : ty.simplify_until_concrete env = .ok x) :
    Ty.equals ty y env = .ok (tyEq x y) := by
  rw [equals_step, hsim, except_bind_ok]
  rcases hy with rfl | rfl | rfl
  · rw [simplify_concrete env Ty.char rfl, except_bind_ok]
    cases x <;> rfl
  · rw [simplify_concrete env Ty.int rfl, except_bind_ok]
    cases x <;> rfl
  · rw [simplify_concrete env Ty.float rfl, except_bind_ok]
    cases x <;> rfl

/-- A type that simplifies to a mutable pointer to one of `Char`, `Int`
or `Float` compares under `Type::equals` against any of the three
mutable pointer guard types exactly as the pointees compare
syntactically. -/
theorem equals_ptr_prim (env : Env) (ty x y : Ty)
    (hx : x = .char ∨ x = .int ∨ x = .float)
    (hy : y = .char ∨ y = .int ∨ y = .float)
    (hsim : ty.simplify_until_concrete env = .ok (.pointer .Mutable x)) :
    Ty.equals ty (.pointer .Mutable y) env = .ok (tyEq x y) := by
  rw [equals_step, hsim, except_bind_ok]
  rcases hy with rfl | rfl | rfl
  · rw [simplify_concrete env (Ty.pointer .Mutable .char) rfl, except_bind_ok]
    rcases hx with rfl | rfl | rfl <;> rfl
  · rw [simplify_concrete env (Ty.pointer .Mutable .int) rfl, except_bind_ok]
    rcases hx with rfl | rfl | rfl <;> rfl
  · rw [simplify_concrete env (Ty.pointer .Mutable .float) rfl, except_bind_ok]
    rcases hx with rfl | rfl | rfl <;> rfl

/-- C10: `get` applies exactly to types that simplify to a mutable
pointer to `Char`, `Int` or `Float`; any type that does not
`Type::equals` one of those three mutable pointer types makes
`Get::compile_types` fail with `UnsupportedOperation`; and whenever
`can_apply` accepts, `compile_types` succeeds, emitting a `Get` op
followed by `Pop(1)`. -/
theorem c10_get_op (ty : Ty) (env : Env) :
    (Get.can_apply ty env = .ok true
      ↔ (ty.simplify_until_concrete env = .ok (.pointer .Mutable .char)
          ∨ ty.simplify_until_concrete env = .ok (.pointer .Mutable .int)
          ∨ ty.simplify_until_concrete env = .ok (.pointer .Mutable .float)))
    ∧ (Ty.equals ty (.pointer .Mutable .char) env = .ok false →
        Ty.equals ty (.pointer .Mutable .int) env = .ok false →
        Ty.equals ty (.pointer .Mutable .float) env = .ok false →
        Get.compile_types ty env = .error .UnsupportedOperation)
    ∧ (Get.can_apply ty env = .ok true →
        ∃ mode, Get.compile_types ty env
          = .ok [.Get (Location.SP.deref.deref) mode, .Pop Option.none 1]) := by
  have hiff : Get.can_apply ty env = .ok true
      ↔ (ty.simplify_until_concrete env = .ok (.pointer .Mutable .char)
          ∨ ty.simplify_until_concrete env = .ok (.pointer .Mutable .int)
          ∨ ty.simplify_until_concrete env = .ok (.pointer .Mutable .float)) := by
    cases hsim : ty.simplify_until_concrete env with
    | error e => simp [Get.can_apply, hsim, Except.map]
    | ok t2 =>
        simp only [Get.can_apply, hsim, Except.map]
        constructor
        · intro h
          have := (get_applicable_iff t2).mp (by injection h)
          rcases this with h2 | h2 | h2 <;> simp [h2]
        · intro h
          rcases h with h | h | h <;>
            (simp only [hsim, Except.ok.injEq] at h; subst h;
             simp [Get.applicable, Mutability.is_mutable])
  refine ⟨hiff, ?_, ?_⟩
  · intro h1 h2 h3
    simp [Get.compile_types, h1, h2, h3]
  · intro hca
    rcases hiff.mp hca with hsim | hsim | hsim
    · have hc : Ty.equals ty (.pointer .Mutable .char) env = .ok true :=
        (equals_ptr_prim env ty .char .char (Or.inl rfl) (Or.inl rfl) hsim).trans (by rfl)
      exact ⟨.stdin_char, by simp [Get.compile_types, hc]⟩
    · have hc : Ty.equals ty (.pointer .Mutable .char) env = .ok false :=
        (equals_ptr_prim env ty .int .char (Or.inr (Or.inl rfl)) (Or.inl rfl) hsim).trans
          (by rfl)
      have hi : Ty.equals ty (.pointer .Mutable .int) env = .ok true :=
        (equals_ptr_prim env ty .int .int (Or.inr (Or.inl rfl)) (Or.inr (Or.inl rfl))
          hsim).trans (by rfl)
      exact ⟨.stdin_int, by simp [Get.compile_types, hc, hi]⟩
    · have hc : Ty.equals ty (.pointer .Mutable .char) env = .ok false :=
        (equals_ptr_prim env ty .float .char (Or.inr (Or.inr rfl)) (Or.inl rfl) hsim).trans
          (by rfl)
      have hi : Ty.equals ty (.pointer .Mutable .int) env = .ok false :=
        (equals_ptr_prim env ty .float .int (Or.inr (Or.inr rfl)) (Or.inr (Or.inl rfl))
          hsim).trans (by rfl)
      have hf : Ty.equals ty (.pointer .Mutable .float) env = .ok true :=
        (equals_ptr_prim env ty .float .float (Or.inr (Or.inr rfl)) (Or.inr (Or.inr rfl))
          hsim).trans (by rfl)
      exact ⟨.stdin_float, by simp [Get.compile_types, hc, hi, hf]⟩

/-- C8: printing the value `[65, 66, 67, 0]` of type `Char[4]` (stack
top at `SP`, value region at `SP.deref().offset(-3)`): the display ops
print exactly the three characters `ABC` (codes 65 66 67, stopping at
the first zero cell, no brackets), and the debug ops print
`['A', 'B', 'C', '\0']` - a bracketed comma-separated list, each
element in single quotes (code 39), the last element being the raw NUL
character (codes 91; 39 65 39; 44 32; 39 66 39; 44 32; 39 67 39; 44 32;
39 0 39; 93). -/
theorem c8_char_array_print :
    ((Put.display 32 ((Location.SP.deref).offset (-(4 : Int) + 1)) (.array .char 4)
          ⟨[], []⟩).toOption.bind
        (fun ops => (exec 300 ⟨0, 0, 0, 3, 0, [65, 66, 67, 0], []⟩ ops).map VMState.out))
      = some [65, 66, 67]
    ∧ ((Put.debug 32 ((Location.SP.deref).offset (-(4 : Int) + 1)) (.array .char 4)
          ⟨[], []⟩).toOption.bind
        (fun ops => (exec 300 ⟨0, 0, 0, 3, 0, [65, 66, 67, 0], []⟩ ops).map VMState.out))
      = some [91, 39, 65, 39, 44, 32, 39, 66, 39, 44, 32, 39, 67, 39, 44, 32, 39, 0, 39, 93] :=
  ⟨rfl, rfl⟩

/-- C7 counterexample: the debug generator does NOT emit a `While` loop
for a `Char` array - it unrolls; at `Char[2]` the emitted op list
contains no `While` anywhere (including inside `Many` groups). -/
theorem c7_counterexample :
    (Put.debug 8 Location.SP (.array .char 2) ⟨[], []⟩).map containsWhileOps
      = .ok false := rfl

/-- C7 (amended): for a constant-length array type `T[n]`, the display
generator emits a single `While` loop when `T` equals (under the
env-aware `Type::equals`, so also through `Symbol` aliases) `Char`,
`Int` or `Float`; the debug generator emits the loop only for types
equal to `Int` or `Float`; in every other case (including `Char` under
debug) both generators unroll at compile time, emitting the element
printer once per index `0 ≤ i < n` at offset `i * size_of(T)`
(`debugElems`), comma-separated and bracketed. -/
theorem c7_array_codegen (f : Nat) (addr : Location) (env : Env) (ty : Ty) (n : Nat) :
    (Ty.equals ty .int env = .ok true →
        Put.debug (f + 1) addr (.array ty n) env
          = .ok [.Many (arrayLoopOps addr (Int.ofNat n) .stdout_int)]
        ∧ Put.display (f + 1) addr (.array ty n) env
          = (do
              let _ ← ty.get_size env
              Except.ok [.Many (arrayLoopOps addr (Int.ofNat n) .stdout_int)]))
    ∧ (Ty.equals ty .float env = .ok true →
        Put.debug (f + 1) addr (.array ty n) env
          = .ok [.Many (arrayLoopOps addr (Int.ofNat n) .stdout_float)]
        ∧ Put.display (f + 1) addr (.array ty n) env
          = (do
              let _ ← ty.get_size env
              Except.ok [.Many (arrayLoopOps addr (Int.ofNat n) .stdout_float)]))
    ∧ (Ty.equals ty .char env = .ok true →
        Put.debug (f + 1) addr (.array ty n) env
          = (do
              let ty_size ← ty.get_size env
              let elems ← debugElems f env addr ty (Int.ofNat ty_size) 0 n
              Except.ok (putCharOps 91 ++ elems ++ putCharOps 93))
        ∧ Put.display (f + 1) addr (.array ty n) env
          = (do
              let _ ← ty.get_size env
              Except.ok [.Many [.GetAddress addr .A, .Set .B (Int.ofNat n), .While .B,
                .If (Location.A.deref), .Put (Location.A.deref) .stdout_char,
                .Next .A Option.none, .Dec .B, .Else, .Set .B 0, .End, .End]]))
    ∧ (Ty.equals ty .int env = .ok false → Ty.equals ty .float env = .ok false →
        Ty.equals ty .char env = .ok false →
        Put.debug (f + 1) addr (.array ty n) env
          = (do
              let ty_size ← ty.get_size env
              let elems ← debugElems f env addr ty (Int.ofNat ty_size) 0 n
              Except.ok (putCharOps 91 ++ elems ++ putCharOps 93))
        ∧ Put.display (f + 1) addr (.array ty n) env
          = (do
              let ty_size ← ty.get_size env
              let elems ← debugElems f env addr ty (Int.ofNat ty_size) 0 n
              Except.ok (putCharOps 91 ++ elems ++ putCharOps 93))) := by
  have hsim : (Ty.array ty n).simplify_until_concrete env = .ok (.array ty n) :=
    simplify_concrete env _ rfl
  refine ⟨?_, ?_, ?_, ?_⟩
  · intro h
    have hsimty := equals_prim_simplify env ty .int (Or.inr (Or.inl rfl)) h
    have hc : Ty.equals ty .char env = .ok false :=
      (equals_prim_of_simplify env ty .int .char (Or.inl rfl) hsimty).trans (by rfl)
    constructor
    · simp only [Put.debug, hsim, except_bind_ok, h]
      simp
    · simp only [Put.display, hsim, except_bind_ok, hc, h]
      simp
  · intro h
    have hsimty := equals_prim_simplify env ty .float (Or.inr (Or.inr rfl)) h
    have hc : Ty.equals ty .char env = .ok false :=
      (equals_prim_of_simplify env ty .float .char (Or.inl rfl) hsimty).trans (by rfl)
    have hi : Ty.equals ty .int env = .ok false :=
      (equals_prim_of_simplify env ty .float .int (Or.inr (Or.inl rfl)) hsimty).trans
        (by rfl)
    constructor
    · simp only [Put.debug, hsim, except_bind_ok, hi, h]
      simp
    · simp only [Put.display, hsim, except_bind_ok, hc, hi, h]
      simp
  · intro h
    have hsimty := equals_prim_simplify env ty .char (Or.inl rfl) h
    have hi : Ty.equals ty .int env = .ok false :=
      (equals_prim_of_simplify env ty .char .int (Or.inr (Or.inl rfl)) hsimty).trans
        (by rfl)
    have hf : Ty.equals ty .float env = .ok false :=
      (equals_prim_of_simplify env ty .char .float (Or.inr (Or.inr rfl)) hsimty).trans
        (by rfl)
    constructor
    · simp only [Put.debug, hsim, except_bind_ok, hi, hf]
      simp
    · simp only [Put.display, hsim, except_bind_ok, h]
      simp
  · intro h1 h2 h3
    constructor
    · simp only [Put.debug, hsim, except_bind_ok, h1, h2, h3]
      simp
    · simp only [Put.display, hsim, except_bind_ok, h1, h2, h3]
      simp

/-- C7 witness at `Char[2]`: debug unrolls, display emits the
string-style `While` loop. -/
theorem c7_witness :
    (Put.debug (7 + 1) Location.SP (.array .char 2) ⟨[], []⟩
        = (do
            let ty_size ← Ty.get_size .char ⟨[], []⟩
            let elems ← debugElems 7 ⟨[], []⟩ Location.SP .char (Int.ofNat ty_size) 0 2
            Except.ok (putCharOps 91 ++ elems ++ putCharOps 93)))
    ∧ Put.display (7 + 1) Location.SP (.array .char 2) ⟨[], []⟩
        = (do
            let _ ← Ty.get_size .char ⟨[], []⟩
            Except.ok [.Many [.GetAddress Location.SP .A, .Set .B (Int.ofNat 2), .While .B,
              .If (Location.A.deref), .Put (Location.A.deref) .stdout_char,
              .Next .A Option.none, .Dec .B, .Else, .Set .B 0, .End, .End]]) :=
  (c7_array_codegen 7 Location.SP ⟨[], []⟩ .char 2).2.2.1 (by rfl)

/-- Stack-neutrality distributes over concatenation. -/
@[simp] theorem stackNeutralOps_append (a b : List CoreOp) :
    stackNeutralOps (a ++ b) = (stackNeutralOps a && stackNeutralOps b) := by
  induction a with
  | nil => simp [stackNeutralOps]
  | cons op rest ih => simp [stackNeutralOps, ih, Bool.and_assoc]

/-- Single-character emission is stack-neutral. -/
@[simp] theorem stackNeutral_putCharOps (c : Int) :
    stackNeutralOps (putCharOps c) = true := rfl

/-- A flattened map whose pieces are all stack-neutral is
stack-neutral. -/
theorem stackNeutral_flatten {α : Type} (l : List α) (g : α → List CoreOp)
    (h : ∀ x ∈ l, stackNeutralOps (g x) = true) :
    stackNeutralOps ((l.map g).flatten) = true := by
  induction l with
  | nil => rfl
  | cons x rest ih =>
      simp only [List.map_cons, List.flatten_cons, stackNeutralOps_append]
      rw [h x (by simp), ih (fun y hy => h y (by simp [hy]))]
      rfl

/-- String emission is stack-neutral. -/
@[simp] theorem stackNeutral_putStrOps (s : String) :
    stackNeutralOps (putStrOps s) = true := by
  unfold putStrOps
  exact stackNeutral_flatten _ _ (fun x _ => rfl)

/-- The element separator is stack-neutral. -/
@[simp] theorem stackNeutral_sepOps : stackNeutralOps sepOps = true := rfl

/-- The Int/Float array `While` loop is stack-neutral. -/
@[simp] theorem stackNeutral_arrayLoopOps (addr : Location) (len : Int) (mode : OutputMode) :
    stackNeutralOps (arrayLoopOps addr len mode) = true := rfl

/-- The enum debug dispatch is stack-neutral. -/
@[simp] theorem stackNeutral_enumDebugOps (t : Ty) (addr : Location) (variants : List String) :
    stackNeutralOps (enumDebugOps t addr variants) = true := by
  unfold enumDebugOps
  refine stackNeutral_flatten _ _ (fun v _ => ?_)
  simp [stackNeutralOps, stackNeutralOp]

/-- The enum display dispatch is stack-neutral. -/
@[simp] theorem stackNeutral_enumDisplayOps (t : Ty) (addr : Location) (variants : List String) :
    stackNeutralOps (enumDisplayOps t addr variants) = true := by
  unfold enumDisplayOps
  rw [stackNeutralOps_append]
  rw [stackNeutral_flatten _ _ (fun v _ => by simp [stackNeutralOps, stackNeutralOp])]
  simp

/-- The `Proc` signature emission is stack-neutral. -/
@[simp] theorem stackNeutral_procDebugOps (args : List Ty) (ret : Ty) :
    stackNeutralOps (procDebugOps args ret) = true := by
  unfold procDebugOps
  exact stackNeutral_putStrOps _

/-- Every op list `Put::debug` (and its element/field helpers)
successfully emits is stack-neutral: it contains no `Push` or `Pop`,
also inside `Many` groups. -/
theorem debug_neutral_all :
    ∀ fuel : Nat,
      (∀ addr t0 env ops, Put.debug fuel addr t0 env = .ok ops → stackNeutralOps ops = true)
      ∧ (∀ env addr ty tysz i r ops,
          debugElems fuel env addr ty tysz i r = .ok ops → stackNeutralOps ops = true)
      ∧ (∀ env addr off fs ops,
          debugStructFields fuel env addr off fs = .ok ops → stackNeutralOps ops = true)
      ∧ (∀ env addr off ts ops,
          debugTupleTys fuel env addr off ts = .ok ops → stackNeutralOps ops = true)
      ∧ (∀ env da ta t vs fs ops,
          debugEnumUnionFields fuel env da ta t vs fs = .ok ops → stackNeutralOps ops = true)
      ∧ (∀ env addr fs ops,
          debugUnionFields fuel env addr fs = .ok ops → stackNeutralOps ops = true) := by
  intro fuel
  induction fuel with
  | zero =>
      refine ⟨?_, ?_, ?_, ?_, ?_, ?_⟩
      · intro addr t0 env ops h
        simp [Put.debug] at h
      · intro env addr ty tysz i r ops h
        simp [debugElems] at h
      · intro env addr off fs ops h
        simp [debugStructFields] at h
      · intro env addr off ts ops h
        simp [debugTupleTys] at h
      · intro env da ta t vs fs ops h
        simp [debugEnumUnionFields] at h
      · intro env addr fs ops h
        simp [debugUnionFields] at h
  | succ f ih =>
      obtain ⟨ihd, ihe, ihs, iht, ihu, ihw⟩ := ih
      refine ⟨?_, ?_, ?_, ?_, ?_, ?_⟩
      · intro addr t0 env ops h
        simp only [Put.debug] at h
        obtain ⟨t, hsim, h⟩ := except_bind_eq_ok h
        split at h
        -- pointer
        · injection h with h
          subst h
          simp [stackNeutralOps, stackNeutralOp]
        -- bool
        · injection h with h
          subst h
          simp [stackNeutralOps, stackNeutralOp]
        -- none
        · injection h with h
          subst h
          simp
        -- any
        · injection h with h
          subst h
          simp
        -- cell
        · injection h with h
          subst h
          simp [stackNeutralOps, stackNeutralOp]
        -- int
        · injection h with h
          subst h
          simp [stackNeutralOps, stackNeutralOp]
        -- float
        · injection h with h
          subst h
          simp [stackNeutralOps, stackNeutralOp]
        -- char
        · injection h with h
          subst h
          simp [stackNeutralOps, stackNeutralOp]
        -- never
        · injection h with h
          subst h
          simp
        -- enum
        · injection h with h
          subst h
          simp
        -- array
        · obtain ⟨bi, hbi, h⟩ := except_bind_eq_ok h
          split at h
          · injection h with h
            subst h
            simp [stackNeutralOps, stackNeutralOp]
          · obtain ⟨bf, hbf, h⟩ := except_bind_eq_ok h
            split at h
            · injection h with h
              subst h
              simp [stackNeutralOps, stackNeutralOp]
            · obtain ⟨sz, hsz, h⟩ := except_bind_eq_ok h
              obtain ⟨elems, hel, h⟩ := except_bind_eq_ok h
              injection h with h
              subst h
              simp [ihe _ _ _ _ _ _ _ hel]
        -- struct
        · obtain ⟨inner, hfs, h⟩ := except_bind_eq_ok h
          injection h with h
          subst h
          simp [ihs _ _ _ _ _ hfs]
        -- tuple
        · obtain ⟨inner, hts, h⟩ := except_bind_eq_ok h
          injection h with h
          subst h
          simp [iht _ _ _ _ _ hts, stackNeutralOps, stackNeutralOp]
        -- proc
        · injection h with h
          subst h
          simp
        -- unit
        · exact ihd _ _ _ _ h
        -- symbol
        · split at h
          · injection h with h
            subst h
            simp
          · simp at h
        -- enum union
        · obtain ⟨sz, hsz, h⟩ := except_bind_eq_ok h
          exact ihu _ _ _ _ _ _ _ h
        -- union
        · obtain ⟨inner, hfs, h⟩ := except_bind_eq_ok h
          injection h with h
          subst h
          simp [ihw _ _ _ _ hfs, stackNeutralOps, stackNeutralOp]
        -- fall-through error cases
        · simp at h
      · intro env addr ty tysz i r ops h
        simp only [debugElems] at h
        cases r with
        | zero =>
            injection h with h
            subst h
            rfl
        | succ r' =>
            obtain ⟨inner, hin, h⟩ := except_bind_eq_ok h
            split at h
            · injection h with h
              subst h
              exact ihd _ _ _ _ hin
            · obtain ⟨rest, hrest, h⟩ := except_bind_eq_ok h
              injection h with h
              subst h
              simp [ihd _ _ _ _ hin, ihe _ _ _ _ _ _ _ hrest]
      · intro env addr off fs ops h
        simp only [debugStructFields] at h
        cases fs with
        | nil =>
            injection h with h
            subst h
            rfl
        | cons nf rest =>
            obtain ⟨inner, hin, h⟩ := except_bind_eq_ok h
            split at h
            · injection h with h
              subst h
              simp [ihd _ _ _ _ hin]
            · obtain ⟨sz, hsz, h⟩ := except_bind_eq_ok h
              obtain ⟨rops, hrec, h⟩ := except_bind_eq_ok h
              injection h with h
              subst h
              simp [ihd _ _ _ _ hin, ihs _ _ _ _ _ hrec]
      · intro env addr off ts ops h
        simp only [debugTupleTys] at h
        cases ts with
        | nil =>
            injection h with h
            subst h
            rfl
        | cons ty rest =>
            obtain ⟨inner, hin, h⟩ := except_bind_eq_ok h
            split at h
            · injection h with h
              subst h
              exact ihd _ _ _ _ hin
            · obtain ⟨sz, hsz, h⟩ := except_bind_eq_ok h
              obtain ⟨rops, hrec, h⟩ := except_bind_eq_ok h
              injection h with h
              subst h
              simp [ihd _ _ _ _ hin, iht _ _ _ _ _ hrec]
      · intro env da ta t vs fs ops h
        cases fs with
        | nil =>
            simp only [debugEnumUnionFields] at h
            injection h with h
            subst h
            rfl
        | cons fv rest =>
            simp only [debugEnumUnionFields] at h
            cases hvi : Ty.variant_index vs fv.1 with
            | none =>
                rw [hvi] at h
                simp at h
            | some tag =>
                rw [hvi] at h
                obtain ⟨inner, hin, h⟩ := except_bind_eq_ok h
                obtain ⟨rops, hrec, h⟩ := except_bind_eq_ok h
                injection h with h
                subst h
                simp [ihd _ _ _ _ hin, ihu _ _ _ _ _ _ _ hrec,
                  stackNeutralOps, stackNeutralOp]
      · intro env addr fs ops h
        simp only [debugUnionFields] at h
        cases fs with
        | nil =>
            injection h with h
            subst h
            rfl
        | cons nf rest =>
            obtain ⟨inner, hin, h⟩ := except_bind_eq_ok h
            split at h
            · injection h with h
              subst h
              simp [ihd _ _ _ _ hin]
            · obtain ⟨rops, hrec, h⟩ := except_bind_eq_ok h
              injection h with h
              subst h
              simp [ihd _ _ _ _ hin, ihw _ _ _ _ hrec]

/-- Every op list `Put::display` successfully emits is stack-neutral. -/
theorem display_neutral (fuel : Nat) (addr : Location) (t0 : Ty) (env : Env)
    (ops : List CoreOp) (h : Put.display fuel addr t0 env = .ok ops) :
    stackNeutralOps ops = true := by
  cases fuel with
  | zero => simp [Put.display] at h
  | succ f =>
      simp only [Put.display] at h
      obtain ⟨t, hsim, h⟩ := except_bind_eq_ok h
      split at h
      -- cell
      · injection h with h
        subst h
        simp [stackNeutralOps, stackNeutralOp]
      -- char
      · injection h with h
        subst h
        simp [stackNeutralOps, stackNeutralOp]
      -- pointer
      · obtain ⟨bs, hbs, h⟩ := except_bind_eq_ok h
        split at h
        · injection h with h
          subst h
          simp [stackNeutralOps, stackNeutralOp]
        · exact (debug_neutral_all (f + 1)).1 _ _ _ _ h
      -- enum
      · injection h with h
        subst h
        simp
      -- array
      · obtain ⟨sz, hsz, h⟩ := except_bind_eq_ok h
        obtain ⟨bc, hbc, h⟩ := except_bind_eq_ok h
        split at h
        · injection h with h
          subst h
          simp [stackNeutralOps, stackNeutralOp]
        · obtain ⟨bi, hbi, h⟩ := except_bind_eq_ok h
          split at h
          · injection h with h
            subst h
            simp [stackNeutralOps, stackNeutralOp]
          · obtain ⟨bf, hbf, h⟩ := except_bind_eq_ok h
            split at h
            · injection h with h
              subst h
              simp [stackNeutralOps, stackNeutralOp]
            · obtain ⟨elems, hel, h⟩ := except_bind_eq_ok h
              injection h with h
              subst h
              simp [(debug_neutral_all f).2.1 _ _ _ _ _ _ _ hel]
      -- fall-through to debug
      · exact (debug_neutral_all (f + 1)).1 _ _ _ _ h

/-- C4: `Put::compile_types`, in both Debug and Display mode, emits an
op sequence whose final op is `Pop(size_of(T))` and whose preceding ops
are all stack-neutral (no `Push`/`Pop`, also inside `Many`), so
executing it consumes exactly the `size_of(T)` cells of the value
region and is stack-neutral overall. -/
theorem c4_put_stack_neutral (fuel : Nat) (mode : Put) (ty : Ty) (env : Env)
    (size : Nat) (ops : List CoreOp)
    (hsize : ty.get_size env = .ok size)
    (h : Put.compile_types fuel mode ty env = .ok ops) :
    ops.getLast? = some (.Pop Option.none size)
    ∧ stackNeutralOps ops.dropLast = true := by
  unfold Put.compile_types at h
  obtain ⟨size', hsize', h⟩ := except_bind_eq_ok h
  rw [hsize] at hsize'
  injection hsize' with e
  subst e
  obtain ⟨ty', hsim, h⟩ := except_bind_eq_ok h
  cases mode with
  | Debug =>
      obtain ⟨inner, hd, h⟩ := except_bind_eq_ok h
      injection h with h
      subst h
      constructor
      · exact List.getLast?_concat _
      · rw [List.dropLast_concat]
        exact (debug_neutral_all fuel).1 _ _ _ _ hd
  | Display =>
      obtain ⟨inner, hd, h⟩ := except_bind_eq_ok h
      injection h with h
      subst h
      constructor
      · exact List.getLast?_concat _
      · rw [List.dropLast_concat]
        exact display_neutral _ _ _ _ _ hd

/-- C4 witness at `Int` in Debug mode: the emitted list is
`[Put(SP.deref, int), Pop(None, 1)]`. -/
theorem c4_witness :
    (([.Put ((Location.SP.deref).offset 0) .stdout_int, .Pop Option.none 1] :
        List CoreOp).getLast? = some (.Pop Option.none 1))
    ∧ stackNeutralOps
        (([.Put ((Location.SP.deref).offset 0) .stdout_int, .Pop Option.none 1] :
          List CoreOp).dropLast) = true :=
  c4_put_stack_neutral 8 .Debug .int ⟨[], []⟩ 1
    [.Put ((Location.SP.deref).offset 0) .stdout_int, .Pop Option.none 1]
    (by rfl) (by rfl)

/-- C10 witness: `&mut Int` applies and compiles to a `Get`/`Pop` pair;
`Bool` is rejected with `UnsupportedOperation`. -/
theorem c10_witness :
    Get.can_apply (.pointer .Mutable .int) ⟨[], []⟩ = .ok true
    ∧ (∃ mode, Get.compile_types (.pointer .Mutable .int) ⟨[], []⟩
        = .ok [.Get (Location.SP.deref.deref) mode, .Pop Option.none 1])
    ∧ Get.compile_types .bool ⟨[], []⟩ = .error .UnsupportedOperation := by
  refine ⟨?_, ?_, ?_⟩
  · exact (c10_get_op (.pointer .Mutable .int) ⟨[], []⟩).1.mpr (Or.inr (Or.inl rfl))
  · exact (c10_get_op (.pointer .Mutable .int) ⟨[], []⟩).2.2 (by rfl)
  · exact (c10_get_op .bool ⟨[], []⟩).2.1 (by rfl) (by rfl) (by rfl)

end Acid
